import Mathlib

/-!
Verification of the rendering core of the javascript-template-engine
repository (src/index.ts).  The engine is a sequence of regex-replace
passes over a template string; we embed it as executable scanners over
`List Char`, with a fuel-indexed `render`, an `Except` monad for the three
strict-mode errors, and an inductive `Value` type for the JavaScript data
model.  Machine reals do not occur; JavaScript numbers are modelled as
integers (no claim exercises fractional values).
-/

namespace JTE

/-- Strings are modelled as lists of characters, so that all scanning
functions are structurally recursive and kernel-reducible. -/
abbrev Str := List Char

/-- Embed a Lean string literal. -/
def str (s : String) : Str := s.data

/-- Left brace character (written via its code point, as brace characters
inside string literals are avoided throughout this file). -/
def lb : Char := Char.ofNat 123

/-- Right brace character. -/
def rb : Char := Char.ofNat 125

/-- Backquote character (used by the JavaScript replacement-string grammar). -/
def bq : Char := Char.ofNat 96

/-- Single quote character. -/
def sq : Char := Char.ofNat 39

/-- Double quote character. -/
def dq : Char := Char.ofNat 34

/-- ASCII whitespace recognised by the JavaScript regex class \s and by
String.prototype.trim (Unicode whitespace beyond ASCII is not modelled;
the templates of interest contain none). -/
def isJsWs (c : Char) : Bool :=
  c = ' ' || c = '\t' || c = '\n' || c = '\r' || c = Char.ofNat 11 || c = Char.ofNat 12

/-- Characters allowed in the indentation group of the partial regex and in
the standalone-line regex: space and tab only. -/
def isIndentCh (c : Char) : Bool := c = ' ' || c = '\t'

/-- Characters matched by the regex class [\w.] used for section and
partial names. -/
def isWordDot (c : Char) : Bool :=
  (('a' ≤ c && c ≤ 'z') || ('A' ≤ c && c ≤ 'Z') || ('0' ≤ c && c ≤ '9')
    || c = '_' || c = '.')

/-- JavaScript String.prototype.trim over the modelled whitespace class. -/
def jsTrim (s : Str) : Str :=
  ((s.dropWhile isJsWs).reverse.dropWhile isJsWs).reverse

/-- JavaScript String.prototype.split with a single-character separator:
"a,b".split(",") = ["a","b"], "".split(",") = [""]. -/
def splitCh (c : Char) : Str → List Str
  | [] => [[]]
  | x :: rest =>
    let r := splitCh c rest
    if x = c then [] :: r
    else
      match r with
      | h :: t => (x :: h) :: t
      | [] => [[x]]

/-- Join a list of strings with a single-character separator
(Array.prototype.join with a one-character separator). -/
def joinCh (c : Char) : List Str → Str
  | [] => []
  | [x] => x
  | x :: xs => x ++ c :: joinCh c xs

/-- Concatenate a list of strings (Array.prototype.join with ""). -/
def joinAll : List Str → Str
  | [] => []
  | x :: xs => x ++ joinAll xs

/-- If `s` starts with the literal `lit`, return the remainder, else none.
This is the basic building block of every regex scanner below. -/
def expectL (lit : Str) (s : Str) : Option Str :=
  if s.take lit.length = lit then some (s.drop lit.length) else none

/-- Look, position by position, for the first place where `tag` matches;
return the text before the match together with the remainder after it.
This models the left-to-right search of a lazy regex span. -/
def findTag (tag : Str → Option Str) : Str → Option (Str × Str)
  | [] =>
    match tag [] with
    | some r => some ([], r)
    | none => none
  | c :: rest =>
    match tag (c :: rest) with
    | some r => some ([], r)
    | none =>
      match findTag tag rest with
      | some (a, b) => some (c :: a, b)
      | none => none

/-- First occurrence of a literal pattern: before-part and after-part. -/
def findSub (pat : Str) (s : Str) : Option (Str × Str) :=
  findTag (expectL pat) s

/-!
## The data model

`Value` models the JavaScript values a context can hold.  Numbers are
modelled as integers.  A lambda field carries a first-order description of
its behaviour (`LamSpec`), since the engine only ever observes a lambda by
calling it: a lambda either throws, returns a string, returns a number, or
(as a Mustache section lambda) wraps the rendered block text between two
literal strings via the render callback.  A section-style wrap lambda
invoked in variable position (where the engine calls it with no arguments)
throws when it applies its absent render callback, so the model maps it to
the caught-error result there.  `vSafe` models a SafeString instance,
holding the string coercion of the wrapped value; at runtime a SafeString
is an object with the single own property "v".
-/

/-- First-order description of a lambda-valued context field. -/
inductive LamSpec where
  | lamThrow : LamSpec
  | lamStr (s : Str) : LamSpec
  | lamNum (n : Int) : LamSpec
  | lamWrap (pre post : Str) : LamSpec

mutual

/-- JavaScript values as seen by the engine.  Array elements and object
fields use dedicated list spines (`ValList`, `FieldList`) so that the
functions that recurse through nested values stay structurally recursive
and kernel-reducible. -/
inductive Value where
  | vStr (s : Str) : Value
  | vInt (n : Int) : Value
  | vBool (b : Bool) : Value
  | vNull : Value
  | vUndefined : Value
  | vArr (xs : ValList) : Value
  | vObj (fields : FieldList) : Value
  | vSafe (s : Str) : Value
  | vLam (l : LamSpec) : Value

/-- Spine of an array value. -/
inductive ValList where
  | vnil : ValList
  | vcons (v : Value) (t : ValList) : ValList

/-- Spine of an object value: insertion-ordered (key, value) fields. -/
inductive FieldList where
  | fnil : FieldList
  | fcons (k : Str) (v : Value) (t : FieldList) : FieldList

end

/-- Array spine to ordinary list. -/
def ValList.toList : ValList → List Value
  | .vnil => []
  | .vcons v t => v :: t.toList

/-- Ordinary list to array spine. -/
def ValList.ofList : List Value → ValList
  | [] => .vnil
  | v :: t => .vcons v (ValList.ofList t)

/-- Field spine to ordinary association list. -/
def FieldList.toList : FieldList → List (Str × Value)
  | .fnil => []
  | .fcons k v t => (k, v) :: t.toList

/-- Ordinary association list to field spine. -/
def FieldList.ofList : List (Str × Value) → FieldList
  | [] => .fnil
  | (k, v) :: t => .fcons k v (FieldList.ofList t)

/-- Build an array value from a list. -/
def varr (l : List Value) : Value := .vArr (ValList.ofList l)

/-- Build an object value from an association list. -/
def vobj (l : List (Str × Value)) : Value := .vObj (FieldList.ofList l)

/-- A data object: its (insertion-ordered) field list.  Later entries
shadow earlier ones, which models object spread {...a, ...b}. -/
abbrev Ctx := List (Str × Value)

/-- JavaScript truthiness. -/
def truthy : Value → Bool
  | .vStr s => !s.isEmpty
  | .vInt n => n ≠ 0
  | .vBool b => b
  | .vNull => false
  | .vUndefined => false
  | .vArr _ => true
  | .vObj _ => true
  | .vSafe _ => true
  | .vLam _ => true

/-- typeof x === "object" (true for objects, arrays, SafeString instances
and null; false for primitives and functions). -/
def isObjType : Value → Bool
  | .vObj _ => true
  | .vArr _ => true
  | .vSafe _ => true
  | .vNull => true
  | _ => false

/-- Last-wins lookup in a field list (object own-property read under the
spread-as-append representation). -/
def objGet (fields : List (Str × Value)) (k : Str) : Option Value :=
  fields.foldl (fun acc e => if e.1 = k then some e.2 else acc) none

/-- Decimal digits of a natural number, as a character list. -/
def natStr (n : Nat) : Str := (Nat.toDigits 10 n)

/-- JavaScript String() of an integer. -/
def intStr (n : Int) : Str :=
  if n < 0 then '-' :: natStr n.natAbs else natStr n.natAbs

/-- Is `k` the canonical decimal representation of the index `i`
(array index own-property names are canonical: no sign, no leading 0)? -/
def isCanonIndex (k : Str) (i : Nat) : Bool := k = natStr i

/-- Own-property read on a value, ignoring the typeof-object guard (used
by the "." special case, where the source calls hasOwnProperty directly).
Primitives and functions have no modelled own properties.  Array own
properties are the canonical index strings and "length". -/
def getOwn : Value → Str → Option Value
  | .vObj fields, k => objGet fields.toList k
  | .vArr xs, k =>
    let l := xs.toList
    if k = str "length" then some (.vInt l.length)
    else
      (List.range l.length).findSome?
        (fun i => if isCanonIndex k i then l.get? i else none)
  | .vSafe s, k => if k = str "v" then some (.vStr s) else none
  | _, _ => none

/-- The prototype-pollution deny-list (source: isDangerousKey). -/
def isDangerousKey (key : Str) : Bool :=
  key = str "__proto__" || key = str "prototype" || key = str "constructor"

/-- The loop of getValueByPath: walk the (already split) path segments.
A step succeeds only when the accumulator is truthy, has typeof "object",
and owns the trimmed segment; otherwise the result is undefined. -/
def walkPath : Value → List Str → Value
  | acc, [] => acc
  | acc, rawKey :: rest =>
    let key := jsTrim rawKey
    if key.isEmpty then .vUndefined
    else if isDangerousKey key then .vUndefined
    else if truthy acc && isObjType acc then
      match getOwn acc key with
      | some v => walkPath v rest
      | none => .vUndefined
    else .vUndefined

/-- Source: getValueByPath.  Resolve a dotted path against a value.
The path "." resolves to the own property "this" when present, else the
value itself; the empty path is undefined; otherwise the path is split on
"." and walked segment by segment. -/
def getValueByPath (obj : Value) (path : Str) : Value :=
  if path = str "." then
    if truthy obj then
      match getOwn obj (str "this") with
      | some v => v
      | none => obj
    else obj
  else if path.isEmpty then .vUndefined
  else walkPath obj (splitCh '.' path)

/-!
## String coercion and escaping
-/

mutual

/-- JavaScript String(v).  Arrays stringify as their elements joined by
commas, with null/undefined elements becoming empty; objects stringify as
"[object Object]"; a SafeString yields the stored coercion.  The source
text of a function is not modelled (no claim observes it). -/
def coerceStr : Value → Str
  | .vStr s => s
  | .vInt n => intStr n
  | .vBool b => if b then str "true" else str "false"
  | .vNull => str "null"
  | .vUndefined => str "undefined"
  | .vSafe s => s
  | .vLam _ => str "[function]"
  | .vObj _ => str "[object Object]"
  | .vArr xs => arrElemsStr xs

/-- Elements of an array joined by commas (Array.prototype.toString via
join(",")); null and undefined elements become empty. -/
def arrElemsStr : ValList → Str
  | .vnil => []
  | .vcons x t =>
    let e : Str :=
      match x with
      | .vNull => []
      | .vUndefined => []
      | _ => coerceStr x
    match t with
    | .vnil => e
    | _ => e ++ ',' :: arrElemsStr t

end

/-- Source: escapeHtml.  The five sequential global replaces & < > " '
are equivalent to this single character map, because the pass for & runs
first and no later replacement introduces a character handled later. -/
def escapeHtml (s : Str) : Str :=
  s.foldr
    (fun c acc =>
      (if c = '&' then str "&amp;"
       else if c = '<' then str "&lt;"
       else if c = '>' then str "&gt;"
       else if c = dq then str "&quot;"
       else if c = sq then str "&#39;"
       else [c]) ++ acc)
    []

/-- Own enumerable fields contributed by spreading a value into an object
literal ({...data, ...value}): objects give their fields, arrays give
index-keyed fields, a SafeString gives its "v" field. -/
def spreadFields : Value → List (Str × Value)
  | .vObj fields => fields.toList
  | .vArr xs =>
    let l := xs.toList
    (List.range l.length).filterMap
      (fun i => (l.get? i).map (fun v => (natStr i, v)))
  | .vSafe s => [(str "v", .vStr s)]
  | _ => []

/-- String.prototype.split(/\r?\n/): split into lines, where each \n
terminates a line and an immediately preceding \r is consumed with it.
A lone \r is ordinary text. -/
def splitLinesRN : Str → List Str
  | [] => [[]]
  | '\r' :: '\n' :: rest => [] :: splitLinesRN rest
  | '\n' :: rest => [] :: splitLinesRN rest
  | c :: rest =>
    match splitLinesRN rest with
    | h :: t => (c :: h) :: t
    | [] => [[c]]

/-- The indentation mapping of the partial pass: the first line is always
prefixed; later lines are prefixed only when non-empty; the lines are
re-joined with \n. -/
def indentLines (ind : Str) (lines : List Str) : List Str :=
  lines.enum.map
    (fun e => if e.1 = 0 then ind ++ e.2
              else if e.2.isEmpty then e.2 else ind ++ e.2)

/-- Apply caller indentation to a rendered partial
(source: render, the indentation mapping). -/
def applyIndent (ind : Str) (rendered : Str) : Str :=
  joinCh '\n' (indentLines ind (splitLinesRN rendered))

/-!
## Engine state: options, registries, errors
-/

/-- The errors a render can propagate: the three strict-mode throw sites
in index.ts, plus an exception raised inside a registered helper body -
applyFilters calls helper(value, ...args) with no try/catch, so such an
exception leaves render uncaught. -/
inductive RErr where
  | unknownHelper (name : Str) : RErr
  | unknownPartial (name : Str) : RErr
  | unknownVariable (path : Str) : RErr
  | userThrown (msg : Str) : RErr
deriving DecidableEq

/-- Decidable equality of pass results, for concrete evaluations. -/
instance instDecEqExc {ε α : Type} [DecidableEq ε] [DecidableEq α] :
    DecidableEq (Except ε α) := fun a b =>
  match a, b with
  | .ok x, .ok y =>
    if h : x = y then isTrue (by rw [h]) else isFalse (by simp [h])
  | .error x, .error y =>
    if h : x = y then isTrue (by rw [h]) else isFalse (by simp [h])
  | .ok _, .error _ => isFalse (by simp)
  | .error _, .ok _ => isFalse (by simp)

/-- A helper (filter) body: the engine calls it with the piped value and
the classified arguments.  A body returns a value or throws (an error
result, typically userThrown) - the call site in applyFilters has no
try/catch.  The built-in helper bodies (date, json, number, ...) depend
on Date, JSON and Intl and are outside the model, so theorems quantify
over the registered-helper list instead. -/
abbrev HelperFn := Value → List Value → Except RErr Value

/-- Engine options (cache options are modelled separately with compile).
escapeFn is modelled as a total function: the default escaper never
throws, and no claim quantifies over a throwing custom escape function -
a user escapeFn that threw would propagate out of render like a helper
exception, outside this model. -/
structure Options where
  escapeHtml : Bool
  escapeFn : Str → Str
  strict : Bool
  strictVariables : Bool

/-- An engine instance: helper registry, partial registry, options.
Registration appends, lookup is last-wins, matching Map.set overwrite
semantics. -/
structure Engine where
  helpers : List (Str × HelperFn)
  partials : List (Str × Str)
  opts : Options

/-- Registry lookup with Map semantics (the latest registration under a
name wins). -/
def lookupReg {α : Type} (reg : List (Str × α)) (name : Str) : Option α :=
  reg.foldl (fun acc e => if e.1 = name then some e.2 else acc) none

/-- The default options: escape with the HTML escaper, no strict modes. -/
def defaultOptions : Options :=
  { escapeHtml := true, escapeFn := escapeHtml,
    strict := false, strictVariables := false }

/-- An engine with default options and empty registries.  (The constructor
also seeds built-in helpers; their bodies are outside the model and no
claim names one, so theorems about unknown helpers use the absence of the
name from the registry as hypothesis.) -/
def defaultEngine : Engine :=
  { helpers := [], partials := [], opts := defaultOptions }

/-!
## The filter pipeline (source: applyFilters)
-/

/-- Decimal digits to a natural number. -/
def digitsToNat (s : Str) : Nat :=
  s.foldl (fun acc c => acc * 10 + (c.toNat - 48)) 0

/-- The integer case of the numeric-literal test [+-]?\d+(\.\d+)?$ of the
argument classifier.  Fractional literals are floats in the source and lie
outside the integer-valued model; no claim exercises a filter argument. -/
def isIntLit (v : Str) : Bool :=
  match v with
  | [] => false
  | c :: rest =>
    let digits := if c = '+' || c = '-' then rest else c :: rest
    !digits.isEmpty && digits.all (fun d => '0' ≤ d && d ≤ '9')

/-- Value of an integer literal. -/
def parseIntLit (v : Str) : Int :=
  match v with
  | '-' :: rest => - (Int.ofNat (digitsToNat rest))
  | '+' :: rest => Int.ofNat (digitsToNat rest)
  | s => Int.ofNat (digitsToNat s)

/-- Classify one filter argument token: quoted literal, numeric literal,
else data-path lookup falling back to the raw token text
(source: applyFilters, the argument mapping). -/
def classifyArg (data : Ctx) (sArg : Str) : Value :=
  let v := jsTrim sArg
  if (v.head? = some dq && v.getLast? = some dq)
      || (v.head? = some sq && v.getLast? = some sq) then
    .vStr ((v.drop 1).dropLast)
  else if isIntLit v then .vInt (parseIntLit v)
  else
    match getValueByPath (vobj data) v with
    | .vUndefined => .vStr v
    | r => r

/-- One step of the filter fold: an empty filter segment is skipped; an
unknown helper name throws UnknownHelper in strict mode, else passes the
value through; a found helper is applied to the value and its classified
arguments with no try/catch, so an error it raises propagates. -/
def filterStep (eng : Engine) (data : Ctx) (value : Value) (rawFilter : Str) :
    Except RErr Value :=
  if rawFilter.isEmpty then pure value
  else
    let pieces := splitCh ':' rawFilter
    let namePart := pieces.headI
    let argParts := pieces.tail
    let name := jsTrim namePart
    match lookupReg eng.helpers name with
    | none =>
      if eng.opts.strict then throw (.unknownHelper name) else pure value
    | some helper =>
      let rawArgs := jsTrim (joinCh ':' argParts)
      let args : List Value :=
        if rawArgs.isEmpty then []
        else (splitCh ',' rawArgs).map (classifyArg data)
      helper value args

/-- Source: applyFilters.  Left-fold (Array.prototype.reduce) of the
filter steps over the initial value. -/
def applyFilters (eng : Engine) (initialValue : Value) (filterParts : List Str)
    (data : Ctx) : Except RErr Value :=
  match filterParts with
  | [] => pure initialValue
  | rawFilter :: rest => do
    let v2 ← filterStep eng data initialValue rawFilter
    applyFilters eng v2 rest data

/-- Variable-position lambda call value.call(data): a throwing lambda is
caught and replaced with "".  A section-style wrap lambda called with no
arguments applies its absent render callback, hence throws, hence is also
caught to "". -/
def varLamCall : LamSpec → Value
  | .lamThrow => .vStr []
  | .lamStr s => .vStr s
  | .lamNum n => .vInt n
  | .lamWrap _ _ => .vStr []

/-- Catch-all of the try/catch around a lambda call: any error degrades to
empty output. -/
def catchAsEmpty (e : Except RErr Str) : Except RErr Str :=
  match e with
  | .ok s => .ok s
  | .error _ => .ok []

/-- Left-to-right effectful map (Array.prototype.map with an exception
propagating out of the callback). -/
def mapME {α : Type} (f : α → Except RErr Str) : List α → Except RErr (List Str)
  | [] => pure []
  | x :: xs => do
    let v ← f x
    let vs ← mapME f xs
    pure (v :: vs)

/-!
## The scanning combinator

One JavaScript global-replace pass: scan left to right; at each position,
the try function decides (from the line-start flag and the remaining
text) whether a match of its regex starts here, returning the replacement
computation and the text after the match.  Replacement text is not
rescanned and scanning resumes after the match, as String.prototype.replace
does.  The flag update `nf c` tells whether the position following an
unmatched character `c` counts as a line start for the pass's regex; a
position following a match never does (the passes that care consume the
line break as part of their match).  Fuel is the length of the scanned
text: every match consumes at least one character.
-/

def scanT (nf : Char → Bool) (tf : Bool → Str → Option (Except RErr Str × Str)) :
    Nat → Bool → Str → Except RErr Str
  | _, _, [] => .ok []
  | 0, _, s => .ok s
  | fuel+1, ls, c :: rest =>
    match tf ls (c :: rest) with
    | some (r, after) => do
      let x ← r
      let y ← scanT nf tf fuel false after
      pure (x ++ y)
    | none => do
      let y ← scanT nf tf fuel (nf c) rest
      pure (c :: y)

/-- Run one pass over a whole working text (position 0 is a line start). -/
def runScan (nf : Char → Bool) (tf : Bool → Str → Option (Except RErr Str × Str))
    (s : Str) : Except RErr Str :=
  scanT nf tf s.length true s

/-- Flag update for passes whose regex has no line anchor. -/
def nfNone : Char → Bool := fun _ => false

/-- Flag update for the multiline ^ anchor of the partial regex
(a JavaScript multiline ^ matches after \n and after \r). -/
def nfML : Char → Bool := fun c => c = '\n' || c = '\r'

/-- Flag update for the (^|\r?\n) group of the standalone regex
(^ without the m flag only matches position 0; the alternative needs an
unconsumed line feed). -/
def nfNL : Char → Bool := fun c => c = '\n'

/-!
## The eleven replace passes (source: render)
-/

/-- Pass 1 matcher, regex {{!\s*[^}]*}}: "{{!", then characters up to the
first right brace, which must start "}}". -/
def tryLineComment (_ : Bool) (s : Str) : Option (Except RErr Str × Str) :=
  match expectL [lb, lb, '!'] s with
  | none => none
  | some r1 =>
    match expectL [rb, rb] (r1.dropWhile (fun c => !(c = rb))) with
    | none => none
    | some r2 => some (.ok [], r2)

/-- Pass 2 matcher, regex {{!--[\s\S]*?--}}: "{{!--" then the lazy span up
to the first "--}}". -/
def tryBlockComment (_ : Bool) (s : Str) : Option (Except RErr Str × Str) :=
  match expectL [lb, lb, '!', '-', '-'] s with
  | none => none
  | some r1 =>
    match findSub ['-', '-', rb, rb] r1 with
    | none => none
    | some (_, after) => some (.ok [], after)

/-- Parse the partial tag after "{{>": regex \s*([\w.]+)(?:\s+([^}]+))?\s*}}.
Returns the name, the optional context path text, and the rest after the
closing braces.  The optional group requires at least one whitespace and a
nonempty brace-free span; when it cannot complete with "}}" the whole
position fails, because the no-context alternative would then meet a
non-brace character after \s*. -/
def partialRest1 (s : Str) : Str :=
  (s.dropWhile isJsWs).drop ((s.dropWhile isJsWs).takeWhile isWordDot).length

/-- The whitespace run after the partial name (the \s+ of the optional
context group). -/
def partialWsRun (s : Str) : Str := (partialRest1 s).takeWhile isJsWs

/-- The text after that whitespace run. -/
def partialRest2 (s : Str) : Str := (partialRest1 s).drop (partialWsRun s).length

/-- The candidate context-path text (the [^}]+ of the optional group). -/
def partialCtxRun (s : Str) : Str :=
  (partialRest2 s).takeWhile (fun c => !(c = rb))

def partialTagAfter (s : Str) : Option (Str × Option Str × Str) :=
  match ((s.dropWhile isJsWs).takeWhile isWordDot).isEmpty with
  | true => none
  | false =>
    match !(partialWsRun s).isEmpty && !(partialCtxRun s).isEmpty with
    | true =>
      match expectL [rb, rb] ((partialRest2 s).drop (partialCtxRun s).length) with
      | some rest =>
        some ((s.dropWhile isJsWs).takeWhile isWordDot, some (partialCtxRun s),
          rest)
      | none => none
    | false =>
      match expectL [rb, rb] (partialRest2 s) with
      | some rest => some ((s.dropWhile isJsWs).takeWhile isWordDot, none, rest)
      | none => none

/-- The replacement of the partial pass: registry lookup with the
source's falsiness guard (if (!partial)) - an unregistered name and a
registered empty-text partial alike give UnknownPartial under strict
mode, else empty output; otherwise context derivation for an optional
context path, recursive render, then the indentation mapping. -/
def partialAct (eng : Engine) (rcb : Str → Ctx → Except RErr Str) (data : Ctx)
    (ind nm : Str) (octx : Option Str) : Except RErr Str :=
  let pname := jsTrim nm
  match lookupReg eng.partials pname with
  | none => if eng.opts.strict then .error (.unknownPartial pname) else .ok []
  | some ptl =>
    if ptl.isEmpty then
      if eng.opts.strict then .error (.unknownPartial pname) else .ok []
    else do
      let ctxData : Ctx :=
        match octx with
        | none => data
        | some craw =>
          let resolved := getValueByPath (vobj data) (jsTrim craw)
          if truthy resolved && isObjType resolved then
            data ++ spreadFields resolved ++ [(str "this", resolved)]
          else data ++ [(str "this", resolved)]
      let rendered ← rcb ptl ctxData
      pure (if ind.isEmpty then rendered else applyIndent ind rendered)

/-- Pass 3 matcher, regex (^[ \t]*){{>\s*([\w.]+)(?:\s+([^}]+))?\s*}} with
the m flag: only at a line start, capturing the leading indentation. -/
def tryPartial (eng : Engine) (rcb : Str → Ctx → Except RErr Str) (data : Ctx)
    (ls : Bool) (s : Str) : Option (Except RErr Str × Str) :=
  match ls with
  | false => none
  | true =>
    match expectL [lb, lb, '>'] (s.drop (s.takeWhile isIndentCh).length) with
    | none => none
    | some r1 =>
      match partialTagAfter r1 with
      | none => none
      | some (nm, octx, rest) =>
        some (partialAct eng rcb data (s.takeWhile isIndentCh) nm octx, rest)

/-- Tail of the standalone regex after a tag: [ \t]* then a consumed \r?\n
or the end of input. -/
def standTail (s : Str) : Option Str :=
  match s.dropWhile isIndentCh with
  | [] => some []
  | '\r' :: '\n' :: rest => some rest
  | '\n' :: rest => some rest
  | _ => none

/-- Lazy comment alternative of the standalone regex, ![\s\S]*? followed
by "}}" and the tail: grow the span one character at a time until the
whole remainder of the pattern succeeds. -/
def standCommentEnd : Str → Option Str
  | [] => none
  | c :: rest =>
    match expectL [rb, rb] (c :: rest) with
    | some u =>
      match standTail u with
      | some r => some r
      | none => standCommentEnd rest
    | none => standCommentEnd rest

/-- The partial alternative of the standalone regex,
\s*[\w.]+(?:\s+[^}]+)? followed directly by the closing braces: unlike
the partial pass's own regex there is no \s* before the braces, so a
whitespace run after the name must start a nonempty context group. -/
def standPartialAfter (s : Str) : Option Str :=
  match ((s.dropWhile isJsWs).takeWhile isWordDot).isEmpty with
  | true => none
  | false =>
    match !(partialWsRun s).isEmpty && !(partialCtxRun s).isEmpty with
    | true => expectL [rb, rb] ((partialRest2 s).drop (partialCtxRun s).length)
    | false => expectL [rb, rb] (partialRest1 s)

/-- Pass 4 matcher, the standalone-line regex
(^|\r?\n)[ \t]*{{(?:![\s\S]*?|>\s*[\w.]+(?:\s+[^}]+)?|[#\/^][^}]*)}}[ \t]*(?:\r?\n|$).
The preceding line break is kept (the replacement restores group 1) and
the trailing one is consumed, so the scanner models the match from the
indentation onwards and requires the line-start flag. -/
def tryStandalone (ls : Bool) (s : Str) : Option (Except RErr Str × Str) :=
  match ls with
  | false => none
  | true =>
    match expectL [lb, lb] (s.drop (s.takeWhile isIndentCh).length) with
    | none => none
    | some r1 =>
      match r1 with
      | [] => none
      | c :: t =>
        match c == '!' with
        | true => (standCommentEnd t).map (fun rest => (.ok [], rest))
        | false =>
          match c == '>' with
          | true =>
            match standPartialAfter t with
            | none => none
            | some rest => (standTail rest).map (fun r => (.ok [], r))
          | false =>
            match c == '#' || c == '/' || c == '^' with
            | true =>
              match expectL [rb, rb]
                  (t.drop (t.takeWhile (fun c2 => !(c2 = rb))).length) with
              | none => none
              | some rest => (standTail rest).map (fun r => (.ok [], r))
            | false => none

/-- Header of a Mustache section or inverted section,
{{#\s*([\w.]+)\s*}} or {{^\s*([\w.]+)\s*}}. -/
def sectionHeader (open3 : Str) (s : Str) : Option (Str × Str) :=
  match expectL open3 s with
  | none => none
  | some r1 =>
    match ((r1.dropWhile isJsWs).takeWhile isWordDot).isEmpty with
    | true => none
    | false =>
      match expectL [rb, rb]
          (((r1.dropWhile isJsWs).drop
              ((r1.dropWhile isJsWs).takeWhile isWordDot).length).dropWhile
            isJsWs) with
      | none => none
      | some rest => some ((r1.dropWhile isJsWs).takeWhile isWordDot, rest)

/-- Closing tag with back-reference, {{\/\s*name\s*}}. -/
def closerEnd (nm : Str) (s : Str) : Option Str :=
  match expectL [lb, lb, '/'] s with
  | none => none
  | some r1 =>
    match expectL nm (r1.dropWhile isJsWs) with
    | none => none
    | some r3 => expectL [rb, rb] (r3.dropWhile isJsWs)

/-- Context for a section item or truthy section value: the current
context spread with the value's own fields when the value has typeof
"object" and is not null, always with `this` bound to the value. -/
def itemCtx (data : Ctx) (item : Value) : Ctx :=
  if isSpreadable item then
    data ++ spreadFields item ++ [(str "this", item)]
  else data ++ [(str "this", item)]
where
  isSpreadable : Value → Bool
    | .vObj _ => true
    | .vArr _ => true
    | .vSafe _ => true
    | _ => false

/-- The replacement of the Mustache section pass, applied to the resolved
section value: lambda call under a local try/catch (string result
re-rendered, other results coerced), array iteration with per-item
contexts, truthy value with a derived context, falsy value to empty. -/
def sectionActOn (eng : Engine) (rcb : Str → Ctx → Except RErr Str) (data : Ctx)
    (value : Value) (block : Str) : Except RErr Str :=
  match value with
  | .vLam l =>
    match l with
    | .lamThrow => .ok []
    | .lamStr lres => catchAsEmpty (rcb lres data)
    | .lamNum n => .ok (intStr n)
    | .lamWrap pre post =>
      catchAsEmpty (do
        let r ← rcb block data
        rcb (pre ++ r ++ post) data)
  | .vArr xs =>
    let items := xs.toList
    if items.isEmpty then .ok []
    else do
      let parts ← mapME (fun item => rcb block (itemCtx data item)) items
      pure (joinAll parts)
  | v =>
    if truthy v then rcb block (itemCtx data v)
    else .ok []

/-- The section replacement: resolve the trimmed name as a path, then act
on the value. -/
def sectionAct (eng : Engine) (rcb : Str → Ctx → Except RErr Str) (data : Ctx)
    (nm block : Str) : Except RErr Str :=
  sectionActOn eng rcb data (getValueByPath (vobj data) (jsTrim nm)) block

/-- Pass 5 matcher, regex {{#\s*([\w.]+)\s*}}([\s\S]*?){{\/\s*\1\s*}}. -/
def trySection (eng : Engine) (rcb : Str → Ctx → Except RErr Str) (data : Ctx)
    (_ : Bool) (s : Str) : Option (Except RErr Str × Str) :=
  match sectionHeader [lb, lb, '#'] s with
  | none => none
  | some (nm, hrest) =>
    match findTag (closerEnd nm) hrest with
    | none => none
    | some (block, after) => some (sectionAct eng rcb data nm block, after)

/-- The inverted-section replacement, applied to the resolved value:
render the block against the unmodified context iff the value is falsy or
an empty array. -/
def invertedActOn (rcb : Str → Ctx → Except RErr Str) (data : Ctx)
    (value : Value) (block : Str) : Except RErr Str :=
  let shouldRender :=
    match value with
    | .vArr xs => xs.toList.isEmpty
    | v => !truthy v
  if shouldRender then rcb block data else .ok []

/-- Pass 6 matcher, regex {{^\s*([\w.]+)\s*}}([\s\S]*?){{\/\s*\1\s*}}. -/
def tryInverted (rcb : Str → Ctx → Except RErr Str) (data : Ctx)
    (_ : Bool) (s : Str) : Option (Except RErr Str × Str) :=
  match sectionHeader [lb, lb, '^'] s with
  | none => none
  | some (nm, hrest) =>
    match findTag (closerEnd nm) hrest with
    | none => none
    | some (block, after) =>
      some (invertedActOn rcb data (getValueByPath (vobj data) (jsTrim nm)) block,
        after)

/-- A {{\s*word\s*}} tag (used by the {{else}} split and by the loop meta
variables); returns the rest after the tag. -/
def metaTagAfter (word : Str) (s : Str) : Option Str :=
  match expectL [lb, lb] s with
  | none => none
  | some r1 =>
    match expectL word (r1.dropWhile isJsWs) with
    | none => none
    | some r2 => expectL [rb, rb] (r2.dropWhile isJsWs)

/-- Split a block body on {{\s*else\s*}} and keep parts[0] and parts[1]
of the JavaScript String.prototype.split result. -/
def splitElse (content : Str) : Str × Option Str :=
  match findTag (metaTagAfter (str "else")) content with
  | none => (content, none)
  | some (a, r) =>
    match findTag (metaTagAfter (str "else")) r with
    | none => (a, some r)
    | some (b, _) => (a, some b)

/-- The if replacement: resolve the condition, split the block on a lone
{{else}}, and pick the half - parts[0] for a truthy value, else parts[1]
defaulting to empty.  The chosen half is substituted verbatim. -/
def ifChoose (data : Ctx) (cond content : Str) : Str :=
  if truthy (getValueByPath (vobj data) (jsTrim cond)) then (splitElse content).1
  else (splitElse content).2.getD []

/-- The unless replacement: same split with inverted polarity. -/
def unlessChoose (data : Ctx) (cond content : Str) : Str :=
  if !truthy (getValueByPath (vobj data) (jsTrim cond)) then
    (splitElse content).1
  else (splitElse content).2.getD []

/-- Pass 7 matcher and replacement, regex {{#if ([^}]+)}}([\s\S]*?){{\/if}}:
resolve the condition, split the block on a lone {{else}}, and substitute
the chosen half verbatim. -/
def tryIf (data : Ctx) (_ : Bool) (s : Str) : Option (Except RErr Str × Str) :=
  match expectL [lb, lb, '#', 'i', 'f', ' '] s with
  | none => none
  | some r1 =>
    match (r1.takeWhile (fun c => !(c = rb))).isEmpty with
    | true => none
    | false =>
      match expectL [rb, rb]
          (r1.drop (r1.takeWhile (fun c => !(c = rb))).length) with
      | none => none
      | some r2 =>
        match findSub [lb, lb, '/', 'i', 'f', rb, rb] r2 with
        | none => none
        | some (content, after) =>
          some (.ok (ifChoose data (r1.takeWhile (fun c => !(c = rb))) content),
            after)

/-- Pass 8 matcher and replacement, the unless form of the if pass with
inverted polarity. -/
def tryUnless (data : Ctx) (_ : Bool) (s : Str) : Option (Except RErr Str × Str) :=
  match expectL [lb, lb, '#', 'u', 'n', 'l', 'e', 's', 's', ' '] s with
  | none => none
  | some r1 =>
    match (r1.takeWhile (fun c => !(c = rb))).isEmpty with
    | true => none
    | false =>
      match expectL [rb, rb]
          (r1.drop (r1.takeWhile (fun c => !(c = rb))).length) with
      | none => none
      | some r2 =>
        match findSub [lb, lb, '/', 'u', 'n', 'l', 'e', 's', 's', rb, rb] r2 with
        | none => none
        | some (content, after) =>
          some (.ok (unlessChoose data (r1.takeWhile (fun c => !(c = rb)))
            content), after)

/-- JavaScript replacement-string splicing: $$ is a dollar, $& the match,
a dollar-backquote the text before the match, a dollar-quote the text
after it; every other dollar sequence is literal because the loop meta
regexes have no capture groups. -/
def dollarSub (rep matched before after : Str) : Str :=
  match rep with
  | [] => []
  | '$' :: c :: rest =>
    if c = '$' then '$' :: dollarSub rest matched before after
    else if c = '&' then matched ++ dollarSub rest matched before after
    else if c = bq then before ++ dollarSub rest matched before after
    else if c = sq then after ++ dollarSub rest matched before after
    else '$' :: c :: dollarSub rest matched before after
  | c :: rest => c :: dollarSub rest matched before after

/-- String.prototype.replace with a global regex and a replacement STRING:
the replacement is spliced through dollarSub at every match, with the
before/after parts taken from the subject of this replace call. -/
def jsRepAll (tg : Str → Option Str) (rep : Str) : Nat → Str → Str → Str
  | _, _, [] => []
  | 0, _, s => s
  | fuel+1, before, c :: rest =>
    match tg (c :: rest) with
    | some after =>
      let matched := (c :: rest).take ((c :: rest).length - after.length)
      dollarSub rep matched before after
        ++ jsRepAll tg rep fuel (before ++ matched) after
    | none => c :: jsRepAll tg rep fuel (before ++ [c]) rest

/-- Run a replacement-string replace over a whole subject. -/
def runRepAll (tg : Str → Option Str) (rep : Str) (s : Str) : Str :=
  jsRepAll tg rep s.length [] s

/-- The five sequential meta-variable replaces of the each pass
(source: render, lines of the each loop): {{this}}, {{.}}, {{@index}},
{{@first}}, {{@last}}, each a replacement-string replace. -/
def metaSubst (loopTpl : Str) (idx n : Nat) (item : Value) : Str :=
  let s1 := runRepAll (metaTagAfter (str "this")) (coerceStr item) loopTpl
  let s2 := runRepAll (metaTagAfter (str ".")) (coerceStr item) s1
  let s3 := runRepAll (metaTagAfter (str "@index")) (natStr idx) s2
  let s4 := runRepAll (metaTagAfter (str "@first"))
    (if idx = 0 then str "true" else []) s3
  runRepAll (metaTagAfter (str "@last"))
    (if idx = n - 1 then str "true" else []) s4

/-- The replacement of the each pass, applied to the resolved value:
a non-array or empty array substitutes the else-part verbatim; otherwise
each element's loop text receives the meta substitutions and is
recursively rendered with `this` bound to the element, and the results
concatenate. -/
def eachActOn (rcb : Str → Ctx → Except RErr Str) (data : Ctx)
    (arr : Value) (loopTpl emptyTpl : Str) : Except RErr Str :=
  match arr with
  | .vArr xs =>
    let items := xs.toList
    if items.isEmpty then .ok emptyTpl
    else do
      let outs ← mapME (fun e =>
          rcb (metaSubst loopTpl e.1 items.length e.2)
            (data ++ [(str "this", e.2)]))
        items.enum
      pure (joinAll outs)
  | _ => .ok emptyTpl

/-- The each replacement: resolve the trimmed path, split the block on
{{else}}, then act on the value. -/
def eachAct (rcb : Str → Ctx → Except RErr Str) (data : Ctx)
    (p content : Str) : Except RErr Str :=
  eachActOn rcb data (getValueByPath (vobj data) (jsTrim p))
    (splitElse content).1 ((splitElse content).2.getD [])

/-- Pass 9 matcher, regex {{#each ([^}]+)}}([\s\S]*?){{\/each}}. -/
def tryEach (rcb : Str → Ctx → Except RErr Str) (data : Ctx)
    (_ : Bool) (s : Str) : Option (Except RErr Str × Str) :=
  match expectL [lb, lb, '#', 'e', 'a', 'c', 'h', ' '] s with
  | none => none
  | some r1 =>
    match (r1.takeWhile (fun c => !(c = rb))).isEmpty with
    | true => none
    | false =>
      match expectL [rb, rb]
          (r1.drop (r1.takeWhile (fun c => !(c = rb))).length) with
      | none => none
      | some r2 =>
        match findSub [lb, lb, '/', 'e', 'a', 'c', 'h', rb, rb] r2 with
        | none => none
        | some (content, after) =>
          some (eachAct rcb data (r1.takeWhile (fun c => !(c = rb))) content,
            after)

/-- The post-resolution part of the triple-brace replacement: call a
lambda under try/catch, apply filters, and string-coerce without escaping;
missing or null yields empty. -/
def tripleActOn (eng : Engine) (data : Ctx) (v0 : Value) (filters : List Str) :
    Except RErr Str := do
  let v1 :=
    match v0 with
    | .vLam l => varLamCall l
    | v => v
  let v2 ← if filters.isEmpty then pure v1 else applyFilters eng v1 filters data
  match v2 with
  | .vUndefined => pure []
  | .vNull => pure []
  | v => pure (coerceStr v)

/-- The triple-brace replacement: split off filters, resolve the path
("." reads the own property "this", else gives the whole data object),
then act on the value. -/
def tripleAct (eng : Engine) (data : Ctx) (inner : Str) : Except RErr Str :=
  let raw := jsTrim inner
  let segments := (splitCh '|' raw).map jsTrim
  let path := segments.headI
  let filters := segments.tail
  let v0 : Value :=
    if path = str "." then
      match getOwn (vobj data) (str "this") with
      | some v => v
      | none => vobj data
    else getValueByPath (vobj data) path
  tripleActOn eng data v0 filters

/-- Pass 10 matcher, regex {{{\s*([^}]+)\s*}}}. -/
def tryTriple (eng : Engine) (data : Ctx) (_ : Bool) (s : Str) :
    Option (Except RErr Str × Str) :=
  match expectL [lb, lb, lb] s with
  | none => none
  | some r1 =>
    match (r1.takeWhile (fun c => !(c = rb))).isEmpty with
    | true => none
    | false =>
      match expectL [rb, rb, rb]
          (r1.drop (r1.takeWhile (fun c => !(c = rb))).length) with
      | none => none
      | some after =>
        some (tripleAct eng data (r1.takeWhile (fun c => !(c = rb))), after)

/-- Parse of the double-brace pass, regex {{\s*([^}]+)\s*}}: the span
between the braces (at least one character, none of them a right brace). -/
def tryVarParse (s : Str) : Option (Str × Str) :=
  match expectL [lb, lb] s with
  | none => none
  | some r1 =>
    match (r1.takeWhile (fun c => !(c = rb))).isEmpty with
    | true => none
    | false =>
      match expectL [rb, rb]
          (r1.drop (r1.takeWhile (fun c => !(c = rb))).length) with
      | none => none
      | some after => some (r1.takeWhile (fun c => !(c = rb)), after)

/-- The post-resolution part of the double-brace replacement: call a
lambda under try/catch, apply filters; missing or null raises
UnknownVariable under strictVariables, else empty; otherwise
string-coerce and escape unless the value is Safe-wrapped or escaping is
disabled. -/
def varActOn (eng : Engine) (data : Ctx) (path : Str) (v0 : Value)
    (filters : List Str) : Except RErr Str := do
  let v1 :=
    match v0 with
    | .vLam l => varLamCall l
    | v => v
  let v2 ← if filters.isEmpty then pure v1 else applyFilters eng v1 filters data
  match v2 with
  | .vUndefined =>
    if eng.opts.strictVariables then throw (.unknownVariable path) else pure []
  | .vNull =>
    if eng.opts.strictVariables then throw (.unknownVariable path) else pure []
  | v =>
    let s1 := coerceStr v
    let isSafe :=
      match v with
      | .vSafe _ => true
      | _ => false
    pure (if eng.opts.escapeHtml && !isSafe then eng.opts.escapeFn s1 else s1)

/-- The double-brace replacement: leftover structural tags yield empty;
otherwise split off filters, resolve the path, and act on the value. -/
def varAct (eng : Engine) (data : Ctx) (inner : Str) : Except RErr Str :=
  let raw := jsTrim inner
  if raw.head? = some '#' || raw.head? = some '/' || raw.head? = some '>' then
    pure []
  else
    let segments := (splitCh '|' raw).map jsTrim
    let path := segments.headI
    let filters := segments.tail
    varActOn eng data path (getValueByPath (vobj data) path) filters

/-- Pass 11 matcher. -/
def tryVar (eng : Engine) (data : Ctx) (_ : Bool) (s : Str) :
    Option (Except RErr Str × Str) :=
  (tryVarParse s).map (fun e => (varAct eng data e.1, e.2))

/-- Pass 1: line comments. -/
def lineCommentPass (s : Str) : Except RErr Str := runScan nfNone tryLineComment s

/-- Pass 2: block comments. -/
def blockCommentPass (s : Str) : Except RErr Str :=
  runScan nfNone tryBlockComment s

/-- Pass 3: partials (multiline-anchored). -/
def partialPass (eng : Engine) (rcb : Str → Ctx → Except RErr Str) (data : Ctx)
    (s : Str) : Except RErr Str :=
  runScan nfML (tryPartial eng rcb data) s

/-- Pass 4: standalone-line trimming. -/
def standalonePass (s : Str) : Except RErr Str := runScan nfNL tryStandalone s

/-- Pass 5: Mustache sections. -/
def sectionPass (eng : Engine) (rcb : Str → Ctx → Except RErr Str) (data : Ctx)
    (s : Str) : Except RErr Str :=
  runScan nfNone (trySection eng rcb data) s

/-- Pass 6: inverted sections. -/
def invertedPass (rcb : Str → Ctx → Except RErr Str) (data : Ctx) (s : Str) :
    Except RErr Str :=
  runScan nfNone (tryInverted rcb data) s

/-- Pass 7: the if pass. -/
def ifPass (data : Ctx) (s : Str) : Except RErr Str :=
  runScan nfNone (tryIf data) s

/-- Pass 8: the unless pass. -/
def unlessPass (data : Ctx) (s : Str) : Except RErr Str :=
  runScan nfNone (tryUnless data) s

/-- Pass 9: the each pass. -/
def eachPass (rcb : Str → Ctx → Except RErr Str) (data : Ctx) (s : Str) :
    Except RErr Str :=
  runScan nfNone (tryEach rcb data) s

/-- Pass 10: triple braces. -/
def triplePass (eng : Engine) (data : Ctx) (s : Str) : Except RErr Str :=
  runScan nfNone (tryTriple eng data) s

/-- Pass 11: double-brace variables. -/
def varPass (eng : Engine) (data : Ctx) (s : Str) : Except RErr Str :=
  runScan nfNone (tryVar eng data) s

/-- Source: TemplateEngine.render.  The eleven replace passes in source
order over one working copy of the text; recursive calls (for partials,
sections, each items and lambda results) consume one unit of fuel, so a
concrete render needs fuel exceeding its recursion depth.  Out of fuel
renders to the empty string (never reached at sufficient fuel). -/
def render (eng : Engine) : Nat → Str → Ctx → Except RErr Str
  | 0, _, _ => .ok []
  | fuel+1, template, data => do
    let rcb := render eng fuel
    let o1 ← lineCommentPass template
    let o2 ← blockCommentPass o1
    let o3 ← partialPass eng rcb data o2
    let o4 ← standalonePass o3
    let o5 ← sectionPass eng rcb data o4
    let o6 ← invertedPass rcb data o5
    let o7 ← ifPass data o6
    let o8 ← unlessPass data o7
    let o9 ← eachPass rcb data o8
    let o10 ← triplePass eng data o9
    let o11 ← varPass eng data o10
    pure o11

/-!
## The compile cache (source: TemplateEngine.compile, caching enabled)

A compiled renderer is a closure over one template string; render
behaviour is fully determined by the template text, so renderer identity
is modelled by a creation counter.  The cache is the insertion-ordered
key/renderer list of the Map.
-/

/-- The compile cache: insertion-ordered entries (template text, renderer
id) and the next fresh renderer id. -/
structure CacheState where
  cache : List (Str × Nat)
  next : Nat

/-- The cache keys in insertion order. -/
def cacheKeys (st : CacheState) : List Str := st.cache.map Prod.fst

/-- One compile call with caching enabled: a hit returns the stored
renderer and leaves the cache unchanged; a miss creates a fresh renderer,
appends it, and when the size then exceeds cacheSize deletes the first
(earliest-inserted) key.  Returns the new state and the id of the
renderer handed back. -/
def compileStep (cacheSize : Nat) (st : CacheState) (tpl : Str) :
    CacheState × Nat :=
  match st.cache.find? (fun e => e.1 = tpl) with
  | some e => (st, e.2)
  | none =>
    let inserted := st.cache ++ [(tpl, st.next)]
    let trimmed := if cacheSize < inserted.length then inserted.tail else inserted
    ({ cache := trimmed, next := st.next + 1 }, st.next)

/-- The cache created when cacheTemplates is enabled. -/
def emptyCache : CacheState := { cache := [], next := 0 }

/-!
## Error-freedom of every pass when the strict options are off
-/

/-- Success predicate on a pass result. -/
def isOkE {α : Type} (e : Except RErr α) : Prop := ∃ v, e = .ok v

/-- A recursive-render callback that never errors. -/
def AllOk (rcb : Str → Ctx → Except RErr Str) : Prop :=
  ∀ t d, isOkE (rcb t d)

/-- Every registered helper returns a value on every input (no helper
throws).  applyFilters wraps helper calls in no try/catch, so
error-freedom of a render needs this of the registry. -/
def HelpersOk (eng : Engine) : Prop :=
  ∀ e ∈ eng.helpers, ∀ v args, isOkE (e.2 v args)

/-- The closing tag of the if pass. -/
def ifClose : Str := [lb, lb, '/', 'i', 'f', rb, rb]

/-- The closing tag of the unless pass. -/
def unlessClose : Str := [lb, lb, '/', 'u', 'n', 'l', 'e', 's', 's', rb, rb]

/-- The closing tag of the each pass. -/
def eachClose : Str := [lb, lb, '/', 'e', 'a', 'c', 'h', rb, rb]

/-- The literal lone else tag. -/
def elseTag : Str := [lb, lb, 'e', 'l', 's', 'e', rb, rb]

/-- A template that is exactly one if/else directive. -/
def mkIf (p A B : Str) : Str :=
  [lb, lb, '#', 'i', 'f', ' '] ++
    (p ++ ([rb, rb] ++ (A ++ (elseTag ++ (B ++ ifClose)))))

/-- A template that is exactly one unless/else directive. -/
def mkUnless (p A B : Str) : Str :=
  [lb, lb, '#', 'u', 'n', 'l', 'e', 's', 's', ' '] ++
    (p ++ ([rb, rb] ++ (A ++ (elseTag ++ (B ++ unlessClose)))))

/-- A template that is exactly one each/else directive. -/
def mkEach (p L E : Str) : Str :=
  [lb, lb, '#', 'e', 'a', 'c', 'h', ' '] ++
    (p ++ ([rb, rb] ++ (L ++ (elseTag ++ (E ++ eachClose)))))

/-- A double-brace variable tag. -/
def dvar (name : Str) : Str := [lb, lb] ++ (name ++ [rb, rb])

/-- A triple-brace variable tag. -/
def tvar (name : Str) : Str := [lb, lb, lb] ++ (name ++ [rb, rb, rb])

/-!
## Claim C5: partial indentation
-/

/-- A template that is exactly one partial tag for the partial named p,
behind caller indentation. -/
def ptag : Str := [lb, lb, '>', ' ', 'p', rb, rb]

/-- A default engine with one registered partial named p. -/
def withPartial (ptext : Str) : Engine :=
  { helpers := [], partials := [(['p'], ptext)], opts := defaultOptions }

/-!
## Claim C1: the two escaping equations
-/

/-- A default engine whose escapeHtml flag is a parameter. -/
def engEsc (b : Bool) : Engine :=
  { helpers := [], partials := [],
    opts := { escapeHtml := b, escapeFn := escapeHtml,
              strict := false, strictVariables := false } }

/-!
## Claim C7: unknown helpers in the filter pipeline
-/

/-- A default-escaping engine with a strict flag and a helper registry. -/
def engH (sb : Bool) (hl : List (Str × HelperFn)) : Engine :=
  { helpers := hl, partials := [],
    opts := { escapeHtml := true, escapeFn := escapeHtml,
              strict := sb, strictVariables := false } }

/-- A non-strict engine whose single registered helper always throws. -/
def engBoom : Engine :=
  engH false [(str "bm", fun _ _ => .error (.userThrown (str "bang")))]

theorem take_len_append (l r : Str) : (l ++ r).take l.length = l := by
  induction l with
  | nil => simp
  | cons c t ih => simp [ih]

theorem drop_len_append (l r : Str) : (l ++ r).drop l.length = r := by
  induction l with
  | nil => simp
  | cons c t ih => simp [ih]

theorem expectL_append (lit r : Str) : expectL lit (lit ++ r) = some r := by
  simp [expectL, take_len_append, drop_len_append]

theorem expectL_head_ne {a b : Char} {p s : Str} (h : b ≠ a) :
    expectL (a :: p) (b :: s) = none := by
  simp only [expectL, List.length_cons, List.take_succ_cons]
  rw [if_neg]
  intro hc
  exact h (List.head_eq_of_cons_eq hc)

theorem expectL_nil {a : Char} {p : Str} : expectL (a :: p) [] = none := by
  simp [expectL]

/-!
## Generic scanner lemmas
-/

theorem scanT_noMatch (nf : Char → Bool)
    (tf : Bool → Str → Option (Except RErr Str × Str)) :
    ∀ (s : Str) (f : Nat) (ls : Bool),
      (∀ i ls2, tf ls2 (s.drop i) = none) →
      scanT nf tf f ls s = .ok s := by
  intro s
  induction s with
  | nil => intro f ls _; cases f <;> rfl
  | cons c rest ih =>
    intro f ls h
    cases f with
    | zero => rfl
    | succ f =>
      have h0 := h 0 ls
      simp only [List.drop_zero] at h0
      have hrec := ih f (nf c) (fun i ls2 => by
        have := h (i + 1) ls2
        simpa using this)
      simp only [scanT, h0, hrec]
      rfl

theorem runScan_noMatch (nf : Char → Bool)
    (tf : Bool → Str → Option (Except RErr Str × Str)) (s : Str)
    (h : ∀ i ls2, tf ls2 (s.drop i) = none) :
    runScan nf tf s = .ok s :=
  scanT_noMatch nf tf s s.length true h

theorem expectL_lb_none {l2 s : Str} (h : lb ∉ s) :
    expectL (lb :: l2) s = none := by
  cases s with
  | nil => simp [expectL]
  | cons c t =>
    have hc : ¬(c = lb) := fun e => h (e ▸ List.mem_cons_self c t)
    simp only [expectL, List.length_cons, List.take_succ_cons]
    rw [if_neg]
    intro hcon
    exact hc (List.head_eq_of_cons_eq hcon)

theorem lb_not_mem_drop {s : Str} (n : Nat) (h : lb ∉ s) : lb ∉ s.drop n :=
  fun hm => h (List.drop_subset n s hm)

theorem lb_not_mem_dropWhile {q : Char → Bool} {s : Str} (h : lb ∉ s) :
    lb ∉ s.dropWhile q :=
  fun hm => h ((List.dropWhile_sublist q).subset hm)

/-!
No-match lemmas for each pass on brace-free text: every matcher requires
an open brace (possibly after an indentation or whitespace run that
cannot contain one).
-/

theorem tryLineComment_none {ls : Bool} {s : Str} (h : lb ∉ s) :
    tryLineComment ls s = none := by
  simp [tryLineComment, expectL_lb_none h]

theorem tryBlockComment_none {ls : Bool} {s : Str} (h : lb ∉ s) :
    tryBlockComment ls s = none := by
  simp [tryBlockComment, expectL_lb_none h]

theorem tryPartial_none {eng rcb data} {ls : Bool} {s : Str} (h : lb ∉ s) :
    tryPartial eng rcb data ls s = none := by
  unfold tryPartial
  cases ls with
  | false => rfl
  | true => simp [expectL_lb_none (lb_not_mem_drop _ h)]

theorem tryStandalone_none {ls : Bool} {s : Str} (h : lb ∉ s) :
    tryStandalone ls s = none := by
  unfold tryStandalone
  cases ls with
  | false => rfl
  | true => simp [expectL_lb_none (lb_not_mem_drop _ h)]

theorem sectionHeader_none {o2 : Str} {s : Str} (h : lb ∉ s) :
    sectionHeader (lb :: o2) s = none := by
  simp [sectionHeader, expectL_lb_none h]

theorem trySection_none {eng rcb data} {ls : Bool} {s : Str} (h : lb ∉ s) :
    trySection eng rcb data ls s = none := by
  simp [trySection, sectionHeader_none h]

theorem tryInverted_none {rcb data} {ls : Bool} {s : Str} (h : lb ∉ s) :
    tryInverted rcb data ls s = none := by
  simp [tryInverted, sectionHeader_none h]

theorem tryIf_none {data} {ls : Bool} {s : Str} (h : lb ∉ s) :
    tryIf data ls s = none := by
  simp [tryIf, expectL_lb_none h]

theorem tryUnless_none {data} {ls : Bool} {s : Str} (h : lb ∉ s) :
    tryUnless data ls s = none := by
  simp [tryUnless, expectL_lb_none h]

theorem tryEach_none {rcb data} {ls : Bool} {s : Str} (h : lb ∉ s) :
    tryEach rcb data ls s = none := by
  simp [tryEach, expectL_lb_none h]

theorem tryTriple_none {eng data} {ls : Bool} {s : Str} (h : lb ∉ s) :
    tryTriple eng data ls s = none := by
  simp [tryTriple, expectL_lb_none h]

theorem tryVar_none {eng data} {ls : Bool} {s : Str} (h : lb ∉ s) :
    tryVar eng data ls s = none := by
  simp [tryVar, tryVarParse, expectL_lb_none h]

/-- Text without an open brace passes through every pass, and hence
through the whole pipeline, unchanged. -/
theorem render_braceFree (eng : Engine) (fuel : Nat) (s : Str) (data : Ctx)
    (h : lb ∉ s) : render eng (fuel + 1) s data = .ok s := by
  have e1 := runScan_noMatch nfNone tryLineComment s
    (fun i ls2 => tryLineComment_none (lb_not_mem_drop i h))
  have e2 := runScan_noMatch nfNone tryBlockComment s
    (fun i ls2 => tryBlockComment_none (lb_not_mem_drop i h))
  have e3 := runScan_noMatch nfML (tryPartial eng (render eng fuel) data) s
    (fun i ls2 => tryPartial_none (lb_not_mem_drop i h))
  have e4 := runScan_noMatch nfNL tryStandalone s
    (fun i ls2 => tryStandalone_none (lb_not_mem_drop i h))
  have e5 := runScan_noMatch nfNone (trySection eng (render eng fuel) data) s
    (fun i ls2 => trySection_none (lb_not_mem_drop i h))
  have e6 := runScan_noMatch nfNone (tryInverted (render eng fuel) data) s
    (fun i ls2 => tryInverted_none (lb_not_mem_drop i h))
  have e7 := runScan_noMatch nfNone (tryIf data) s
    (fun i ls2 => tryIf_none (lb_not_mem_drop i h))
  have e8 := runScan_noMatch nfNone (tryUnless data) s
    (fun i ls2 => tryUnless_none (lb_not_mem_drop i h))
  have e9 := runScan_noMatch nfNone (tryEach (render eng fuel) data) s
    (fun i ls2 => tryEach_none (lb_not_mem_drop i h))
  have e10 := runScan_noMatch nfNone (tryTriple eng data) s
    (fun i ls2 => tryTriple_none (lb_not_mem_drop i h))
  have e11 := runScan_noMatch nfNone (tryVar eng data) s
    (fun i ls2 => tryVar_none (lb_not_mem_drop i h))
  simp [render, lineCommentPass, blockCommentPass, partialPass, standalonePass,
    sectionPass, invertedPass, ifPass, unlessPass, eachPass, triplePass,
    varPass, Bind.bind, Except.bind, Pure.pure, Except.pure, e1, e2, e3, e4,
    e5, e6, e7, e8, e9, e10, e11]

theorem isOkE_pure {α : Type} (v : α) : isOkE ((pure v : Except RErr α)) :=
  ⟨v, rfl⟩

theorem isOkE_ok {α : Type} (v : α) : isOkE ((Except.ok v : Except RErr α)) :=
  ⟨v, rfl⟩

theorem isOkE_bind {α β : Type} {x : Except RErr α} {f : α → Except RErr β}
    (hx : isOkE x) (hf : ∀ v, isOkE (f v)) : isOkE (x >>= f) := by
  obtain ⟨v, hv⟩ := hx
  subst hv
  exact hf v

theorem isOkE_map {α β : Type} {x : Except RErr α} (f : α → β)
    (hx : isOkE x) : isOkE (f <$> x) := by
  obtain ⟨v, hv⟩ := hx
  subst hv
  exact ⟨f v, rfl⟩

theorem isOkE_catchAsEmpty (e : Except RErr Str) : isOkE (catchAsEmpty e) := by
  cases e with
  | ok v => exact ⟨v, rfl⟩
  | error _ => exact ⟨[], rfl⟩

theorem mapME_ok {α : Type} (f : α → Except RErr Str) (l : List α)
    (h : ∀ x ∈ l, isOkE (f x)) : isOkE (mapME f l) := by
  induction l with
  | nil => exact ⟨[], rfl⟩
  | cons x xs ih =>
    obtain ⟨v, hv⟩ := h x (List.mem_cons_self x xs)
    obtain ⟨vs, hvs⟩ := ih (fun y hy => h y (List.mem_cons_of_mem x hy))
    exact ⟨v :: vs, by simp [mapME, hv, hvs, Bind.bind, Except.bind, Pure.pure,
      Except.pure]⟩

theorem lookupReg_foldl_mem {α : Type} :
    ∀ (reg : List (Str × α)) (name : Str) (acc : Option α) (h : α),
      reg.foldl (fun a e => if e.1 = name then some e.2 else a) acc = some h →
      (∃ k, (k, h) ∈ reg) ∨ acc = some h := by
  intro reg
  induction reg with
  | nil => intro name acc h hf; exact Or.inr hf
  | cons e rest ih =>
    intro name acc h hf
    rw [List.foldl_cons] at hf
    rcases ih name _ h hf with ⟨k, hk⟩ | hacc
    · exact Or.inl ⟨k, List.mem_cons_of_mem e hk⟩
    · by_cases he : e.1 = name
      · rw [if_pos he] at hacc
        injection hacc with hh
        refine Or.inl ⟨e.1, ?_⟩
        rw [← hh, Prod.mk.eta]
        exact List.mem_cons_self e rest
      · rw [if_neg he] at hacc
        exact Or.inr hacc

/-- A successful registry lookup returns a registered entry. -/
theorem lookupReg_mem {α : Type} {reg : List (Str × α)} {name : Str} {h : α}
    (hf : lookupReg reg name = some h) : ∃ k, (k, h) ∈ reg := by
  rcases lookupReg_foldl_mem reg name none h hf with hk | hcon
  · exact hk
  · cases hcon

theorem filterStep_ok (eng : Engine) (h1 : eng.opts.strict = false)
    (hh : HelpersOk eng) (data : Ctx) (v : Value) (f : Str) :
    isOkE (filterStep eng data v f) := by
  unfold filterStep
  by_cases hfe : f.isEmpty
  · simp [hfe]; exact ⟨v, rfl⟩
  · simp only [hfe, Bool.false_eq_true, if_neg, not_false_eq_true]
    cases hlk : lookupReg eng.helpers (jsTrim (splitCh ':' f).headI) with
    | none => simp [h1]; exact ⟨v, rfl⟩
    | some helper =>
      obtain ⟨k, hk⟩ := lookupReg_mem hlk
      exact hh (k, helper) hk v _

theorem applyFilters_ok (eng : Engine) (h1 : eng.opts.strict = false)
    (hh : HelpersOk eng) (fs : List Str) (data : Ctx) (v : Value) :
    isOkE (applyFilters eng v fs data) := by
  induction fs generalizing v with
  | nil => exact ⟨v, rfl⟩
  | cons f fs ih =>
    obtain ⟨w, hw⟩ := filterStep_ok eng h1 hh data v f
    simp only [applyFilters, hw, Bind.bind, Except.bind]
    exact ih w

theorem partialAct_ok {eng rcb data ind nm octx}
    (h1 : eng.opts.strict = false) (hr : AllOk rcb) :
    isOkE (partialAct eng rcb data ind nm octx) := by
  unfold partialAct
  cases hlk : lookupReg eng.partials (jsTrim nm) with
  | none =>
    simp only [hlk, h1, Bool.false_eq_true, if_neg, not_false_eq_true]
    exact isOkE_ok []
  | some ptl =>
    simp only [hlk]
    by_cases he : ptl.isEmpty
    · simp only [he, if_pos, h1, Bool.false_eq_true, if_neg,
        not_false_eq_true]
      exact isOkE_ok []
    · simp only [he, Bool.false_eq_true, if_neg, not_false_eq_true]
      exact isOkE_bind (hr _ _) (fun v => isOkE_pure _)

theorem sectionActOn_ok {eng rcb data value block}
    (hr : AllOk rcb) : isOkE (sectionActOn eng rcb data value block) := by
  unfold sectionActOn
  cases value with
  | vLam l =>
    cases l with
    | lamThrow => exact isOkE_ok []
    | lamStr s => exact isOkE_catchAsEmpty _
    | lamNum n => exact isOkE_ok _
    | lamWrap pre post => exact isOkE_catchAsEmpty _
  | vArr xs =>
    by_cases he : xs.toList.isEmpty
    · simp only [he, if_pos]
      exact isOkE_ok []
    · simp only [he, Bool.false_eq_true, if_neg, not_false_eq_true]
      exact isOkE_bind (mapME_ok _ _ (fun x _ => hr _ _)) (fun v => isOkE_pure _)
  | vStr s =>
    by_cases ht : truthy (.vStr s) = true
    · simp only [ht, if_pos]; exact hr _ _
    · simp only [ht, if_neg, Bool.false_eq_true, not_false_eq_true]
      exact isOkE_ok []
  | vInt n =>
    by_cases ht : truthy (.vInt n) = true
    · simp only [ht, if_pos]; exact hr _ _
    · simp only [ht, if_neg, Bool.false_eq_true, not_false_eq_true]
      exact isOkE_ok []
  | vBool b =>
    by_cases ht : truthy (.vBool b) = true
    · simp only [ht, if_pos]; exact hr _ _
    · simp only [ht, if_neg, Bool.false_eq_true, not_false_eq_true]
      exact isOkE_ok []
  | vNull => exact ⟨[], rfl⟩
  | vUndefined => exact ⟨[], rfl⟩
  | vObj fs => exact hr _ _
  | vSafe s => exact hr _ _

theorem invertedActOn_ok {rcb data value block} (hr : AllOk rcb) :
    isOkE (invertedActOn rcb data value block) := by
  unfold invertedActOn
  by_cases hs : (match value with
      | .vArr xs => xs.toList.isEmpty
      | v => !truthy v) = true
  · simp only [hs, if_pos]
    exact hr _ _
  · simp only [hs, if_neg, Bool.false_eq_true, not_false_eq_true]
    exact isOkE_ok []

theorem eachActOn_ok {rcb data arr loopTpl emptyTpl} (hr : AllOk rcb) :
    isOkE (eachActOn rcb data arr loopTpl emptyTpl) := by
  unfold eachActOn
  cases arr with
  | vArr xs =>
    by_cases he : xs.toList.isEmpty
    · simp only [he, if_pos]
      exact isOkE_ok _
    · simp only [he, Bool.false_eq_true, if_neg, not_false_eq_true]
      exact isOkE_bind (mapME_ok _ _ (fun x _ => hr _ _)) (fun v => isOkE_pure _)
  | vStr s => exact ⟨emptyTpl, rfl⟩
  | vInt n => exact ⟨emptyTpl, rfl⟩
  | vBool b => exact ⟨emptyTpl, rfl⟩
  | vNull => exact ⟨emptyTpl, rfl⟩
  | vUndefined => exact ⟨emptyTpl, rfl⟩
  | vObj fs => exact ⟨emptyTpl, rfl⟩
  | vSafe s => exact ⟨emptyTpl, rfl⟩
  | vLam l => exact ⟨emptyTpl, rfl⟩

theorem tripleActOn_ok {eng data v0 filters} (h1 : eng.opts.strict = false)
    (hh : HelpersOk eng) : isOkE (tripleActOn eng data v0 filters) := by
  unfold tripleActOn
  by_cases hf : filters.isEmpty
  · simp only [hf]
    refine isOkE_bind (isOkE_pure _) ?_
    intro v
    split <;> exact isOkE_pure _
  · simp only [hf, Bool.false_eq_true, if_neg, not_false_eq_true]
    obtain ⟨w, hw⟩ := applyFilters_ok eng h1 hh filters data _
    rw [hw]
    refine isOkE_bind (isOkE_ok w) ?_
    intro v
    split <;> exact isOkE_pure _

theorem varActOn_ok {eng data path v0 filters}
    (h1 : eng.opts.strict = false) (h2 : eng.opts.strictVariables = false)
    (hh : HelpersOk eng) : isOkE (varActOn eng data path v0 filters) := by
  unfold varActOn
  by_cases hf : filters.isEmpty
  · simp only [hf]
    refine isOkE_bind (isOkE_pure _) ?_
    intro v
    split <;> simp [h2] <;> exact ⟨_, rfl⟩
  · simp only [hf, Bool.false_eq_true, if_neg, not_false_eq_true]
    obtain ⟨w, hw⟩ := applyFilters_ok eng h1 hh filters data _
    rw [hw]
    refine isOkE_bind (isOkE_ok w) ?_
    intro v
    split <;> simp [h2] <;> exact ⟨_, rfl⟩

theorem varAct_ok {eng data inner}
    (h1 : eng.opts.strict = false) (h2 : eng.opts.strictVariables = false)
    (hh : HelpersOk eng) : isOkE (varAct eng data inner) := by
  simp only [varAct]
  split
  · exact isOkE_pure _
  · exact varActOn_ok h1 h2 hh

/-!
Replacement-side success for every matcher, assuming non-strict options
and an error-free recursive callback.
-/

theorem tryLineComment_repl {ls s r a} (h : tryLineComment ls s = some (r, a)) :
    isOkE r := by
  unfold tryLineComment at h
  iterate 4 (all_goals try (first | split at h | (replace h := h.symm; split at h)))
  all_goals cases h
  exact isOkE_ok []

theorem tryBlockComment_repl {ls s r a}
    (h : tryBlockComment ls s = some (r, a)) : isOkE r := by
  unfold tryBlockComment at h
  iterate 4 (all_goals try (first | split at h | (replace h := h.symm; split at h)))
  all_goals cases h
  exact isOkE_ok []

theorem tryPartial_repl {eng rcb data ls s r a}
    (h1 : eng.opts.strict = false) (hr : AllOk rcb)
    (h : tryPartial eng rcb data ls s = some (r, a)) : isOkE r := by
  unfold tryPartial at h
  iterate 5 (all_goals try (first | split at h | (replace h := h.symm; split at h)))
  all_goals cases h
  exact partialAct_ok h1 hr

theorem tryStandalone_repl {ls s r a} (h : tryStandalone ls s = some (r, a)) :
    isOkE r := by
  unfold tryStandalone at h
  iterate 9 (all_goals try (first | split at h | (replace h := h.symm; split at h)))
  all_goals try cases h
  all_goals
    first
      | (obtain ⟨x, hx, heq⟩ := Option.map_eq_some'.mp h
         cases heq
         exact isOkE_ok [])
      | (obtain ⟨x, hx, heq⟩ := Option.map_eq_some'.mp h.symm
         cases heq
         exact isOkE_ok [])

theorem trySection_repl {eng rcb data ls s r a} (hr : AllOk rcb)
    (h : trySection eng rcb data ls s = some (r, a)) : isOkE r := by
  unfold trySection at h
  iterate 4 (all_goals try (first | split at h | (replace h := h.symm; split at h)))
  all_goals cases h
  exact sectionActOn_ok hr

theorem tryInverted_repl {rcb data ls s r a} (hr : AllOk rcb)
    (h : tryInverted rcb data ls s = some (r, a)) : isOkE r := by
  unfold tryInverted at h
  iterate 4 (all_goals try (first | split at h | (replace h := h.symm; split at h)))
  all_goals cases h
  exact invertedActOn_ok hr

theorem tryIf_repl {data ls s r a} (h : tryIf data ls s = some (r, a)) :
    isOkE r := by
  unfold tryIf at h
  iterate 5 (all_goals try (first | split at h | (replace h := h.symm; split at h)))
  all_goals cases h
  exact isOkE_ok _

theorem tryUnless_repl {data ls s r a} (h : tryUnless data ls s = some (r, a)) :
    isOkE r := by
  unfold tryUnless at h
  iterate 5 (all_goals try (first | split at h | (replace h := h.symm; split at h)))
  all_goals cases h
  exact isOkE_ok _

theorem tryEach_repl {rcb data ls s r a} (hr : AllOk rcb)
    (h : tryEach rcb data ls s = some (r, a)) : isOkE r := by
  unfold tryEach at h
  iterate 5 (all_goals try (first | split at h | (replace h := h.symm; split at h)))
  all_goals cases h
  exact eachActOn_ok hr

theorem tryTriple_repl {eng data ls s r a} (h1 : eng.opts.strict = false)
    (hh : HelpersOk eng)
    (h : tryTriple eng data ls s = some (r, a)) : isOkE r := by
  unfold tryTriple at h
  iterate 5 (all_goals try (first | split at h | (replace h := h.symm; split at h)))
  all_goals cases h
  exact tripleActOn_ok h1 hh

theorem tryVar_repl {eng data ls s r a}
    (h1 : eng.opts.strict = false) (h2 : eng.opts.strictVariables = false)
    (hh : HelpersOk eng)
    (h : tryVar eng data ls s = some (r, a)) : isOkE r := by
  unfold tryVar at h
  simp only [Option.map_eq_some'] at h
  obtain ⟨x, hx, heq⟩ := h
  cases heq
  exact varAct_ok h1 h2 hh

/-- A scan whose matcher only produces successful replacements succeeds. -/
theorem scanT_ok (nf : Char → Bool)
    (tf : Bool → Str → Option (Except RErr Str × Str))
    (hok : ∀ ls s r a, tf ls s = some (r, a) → isOkE r) :
    ∀ (f : Nat) (ls : Bool) (s : Str), isOkE (scanT nf tf f ls s) := by
  intro f
  induction f with
  | zero =>
    intro ls s
    cases s with
    | nil => exact ⟨[], rfl⟩
    | cons c rest => exact ⟨c :: rest, rfl⟩
  | succ f ih =>
    intro ls s
    cases s with
    | nil => exact ⟨[], rfl⟩
    | cons c rest =>
      cases htf : tf ls (c :: rest) with
      | none =>
        obtain ⟨v, hv⟩ := ih (nf c) rest
        exact ⟨c :: v, by simp [scanT, htf, hv, Bind.bind, Except.bind, Pure.pure,
          Except.pure]⟩
      | some pr =>
        obtain ⟨x, hx⟩ := hok ls _ pr.1 pr.2 (by rw [htf])
        obtain ⟨y, hy⟩ := ih false pr.2
        refine ⟨x ++ y, ?_⟩
        rw [scanT]
        simp [htf, hx, hy, Bind.bind, Except.bind, Pure.pure, Except.pure]

/-- With both strict options off, render never throws: every anomaly
degrades to empty or falsy-branch output (source: the three guarded throw
sites are the only ones). -/
theorem render_ok (eng : Engine) (h1 : eng.opts.strict = false)
    (h2 : eng.opts.strictVariables = false) (hh : HelpersOk eng) :
    ∀ (fuel : Nat) (tpl : Str) (data : Ctx), isOkE (render eng fuel tpl data) := by
  intro fuel
  induction fuel with
  | zero => exact fun tpl data => ⟨[], rfl⟩
  | succ fuel ih =>
    intro tpl data
    have hrcb : AllOk (render eng fuel) := fun t d => ih t d
    have s1 := scanT_ok nfNone tryLineComment
      (fun ls s r a h => tryLineComment_repl h) tpl.length true tpl
    obtain ⟨o1, ho1⟩ := s1
    obtain ⟨o2, ho2⟩ := scanT_ok nfNone tryBlockComment
      (fun ls s r a h => tryBlockComment_repl h) o1.length true o1
    obtain ⟨o3, ho3⟩ := scanT_ok nfML (tryPartial eng (render eng fuel) data)
      (fun ls s r a h => tryPartial_repl h1 hrcb h) o2.length true o2
    obtain ⟨o4, ho4⟩ := scanT_ok nfNL tryStandalone
      (fun ls s r a h => tryStandalone_repl h) o3.length true o3
    obtain ⟨o5, ho5⟩ := scanT_ok nfNone (trySection eng (render eng fuel) data)
      (fun ls s r a h => trySection_repl hrcb h) o4.length true o4
    obtain ⟨o6, ho6⟩ := scanT_ok nfNone (tryInverted (render eng fuel) data)
      (fun ls s r a h => tryInverted_repl hrcb h) o5.length true o5
    obtain ⟨o7, ho7⟩ := scanT_ok nfNone (tryIf data)
      (fun ls s r a h => tryIf_repl h) o6.length true o6
    obtain ⟨o8, ho8⟩ := scanT_ok nfNone (tryUnless data)
      (fun ls s r a h => tryUnless_repl h) o7.length true o7
    obtain ⟨o9, ho9⟩ := scanT_ok nfNone (tryEach (render eng fuel) data)
      (fun ls s r a h => tryEach_repl hrcb h) o8.length true o8
    obtain ⟨o10, ho10⟩ := scanT_ok nfNone (tryTriple eng data)
      (fun ls s r a h => tryTriple_repl h1 hh h) o9.length true o9
    obtain ⟨o11, ho11⟩ := scanT_ok nfNone (tryVar eng data)
      (fun ls s r a h => tryVar_repl h1 h2 hh h) o10.length true o10
    refine ⟨o11, ?_⟩
    simp [render, lineCommentPass, blockCommentPass, partialPass, standalonePass,
      sectionPass, invertedPass, ifPass, unlessPass, eachPass, triplePass,
      varPass, runScan, Bind.bind, Except.bind, Pure.pure, Except.pure, ho1,
      ho2, ho3, ho4, ho5, ho6, ho7, ho8, ho9, ho10, ho11]

/-!
## Parse lemmas for symbolic templates
-/

theorem takeWhile_append_sat {q : Char → Bool} {p : Str} {y : Char} {r : Str}
    (hp : ∀ c ∈ p, q c = true) (hy : q y = false) :
    (p ++ y :: r).takeWhile q = p := by
  induction p with
  | nil => simp [List.takeWhile, hy]
  | cons c t ih =>
    have hc := hp c (List.mem_cons_self c t)
    simp [List.takeWhile_cons, hc,
      ih (fun d hd => hp d (List.mem_cons_of_mem c hd))]

theorem isEmpty_false_of_ne {p : Str} (h : p ≠ []) : p.isEmpty = false := by
  cases p with
  | nil => exact absurd rfl h
  | cons c t => rfl

/-- A one-match scan: when the matcher fires at position 0, consuming the
whole text, with a successful replacement, the scan returns just that
replacement. -/
theorem scanT_single_match {nf : Char → Bool}
    {tf : Bool → Str → Option (Except RErr Str × Str)} {f : Nat} {ls : Bool}
    {c : Char} {rest : Str} {v : Str}
    (h : tf ls (c :: rest) = some (.ok v, [])) :
    scanT nf tf (f + 1) ls (c :: rest) = .ok v := by
  rw [scanT, h]
  cases f <;> simp [scanT, Bind.bind, Except.bind, Pure.pure, Except.pure]

theorem tryIf_parse (data : Ctx) (p A B : Str) (hp : p ≠ [])
    (hpc : ∀ c ∈ p, (!(c = rb)) = true)
    (hfind : findSub ifClose (A ++ (elseTag ++ (B ++ ifClose)))
      = some (A ++ (elseTag ++ B), []))
    (ls : Bool) :
    tryIf data ls (mkIf p A B)
      = some (.ok (ifChoose data p (A ++ (elseTag ++ B))), []) := by
  unfold tryIf mkIf
  rw [expectL_append]
  have ht : (p ++ ([rb, rb] ++ (A ++ (elseTag ++ (B ++ ifClose))))).takeWhile
      (fun c => !(c = rb)) = p := by
    have : (p ++ ([rb, rb] ++ (A ++ (elseTag ++ (B ++ ifClose)))))
        = p ++ rb :: (rb :: (A ++ (elseTag ++ (B ++ ifClose)))) := by simp
    rw [this]
    exact takeWhile_append_sat hpc (by simp)
  simp only [ht, isEmpty_false_of_ne hp, drop_len_append]
  rw [expectL_append]
  dsimp only
  rw [show ([lb, lb, '/', 'i', 'f', rb, rb] : Str) = ifClose from rfl, hfind]

theorem tryUnless_parse (data : Ctx) (p A B : Str) (hp : p ≠ [])
    (hpc : ∀ c ∈ p, (!(c = rb)) = true)
    (hfind : findSub unlessClose (A ++ (elseTag ++ (B ++ unlessClose)))
      = some (A ++ (elseTag ++ B), []))
    (ls : Bool) :
    tryUnless data ls (mkUnless p A B)
      = some (.ok (unlessChoose data p (A ++ (elseTag ++ B))), []) := by
  unfold tryUnless mkUnless
  rw [expectL_append]
  have ht : (p ++ ([rb, rb] ++ (A ++ (elseTag ++ (B ++ unlessClose))))).takeWhile
      (fun c => !(c = rb)) = p := by
    have : (p ++ ([rb, rb] ++ (A ++ (elseTag ++ (B ++ unlessClose)))))
        = p ++ rb :: (rb :: (A ++ (elseTag ++ (B ++ unlessClose)))) := by simp
    rw [this]
    exact takeWhile_append_sat hpc (by simp)
  simp only [ht, isEmpty_false_of_ne hp, drop_len_append]
  rw [expectL_append]
  dsimp only
  rw [show ([lb, lb, '/', 'u', 'n', 'l', 'e', 's', 's', rb, rb] : Str)
    = unlessClose from rfl, hfind]

/-!
## Claim C2
-/

/-- Claim C2: for every template of the form if p then A else B (and
likewise unless), the if/unless pass substitutes the chosen half verbatim
- the conclusion returns A or B exactly as given, whatever directives they
contain, and ifPass/unlessPass take no render callback, so no recursive
render happens.  The side conditions say precisely that the template
parses as one such directive: a nonempty brace-free condition, the final
closer is the first one, and the lone else splits the block into A and B.
The last conjunct shows a directive embedded in the chosen half being
handled by a later pass of the same top-level invocation: it renders at
fuel 1, where any recursive re-render would be out of fuel. -/
theorem claim_C2 :
    (∀ (data : Ctx) (p A B : Str),
      p ≠ [] → (∀ c ∈ p, (!(c = rb)) = true) →
      findSub ifClose (A ++ (elseTag ++ (B ++ ifClose)))
        = some (A ++ (elseTag ++ B), []) →
      splitElse (A ++ (elseTag ++ B)) = (A, some B) →
      ifPass data (mkIf p A B)
        = .ok (if truthy (getValueByPath (vobj data) (jsTrim p)) then A else B))
  ∧ (∀ (data : Ctx) (p A B : Str),
      p ≠ [] → (∀ c ∈ p, (!(c = rb)) = true) →
      findSub unlessClose (A ++ (elseTag ++ (B ++ unlessClose)))
        = some (A ++ (elseTag ++ B), []) →
      splitElse (A ++ (elseTag ++ B)) = (A, some B) →
      unlessPass data (mkUnless p A B)
        = .ok (if !truthy (getValueByPath (vobj data) (jsTrim p)) then A
               else B))
  ∧ render defaultEngine 1 (mkIf (str "p") (dvar (str "v")) (dvar (str "w")))
      [(str "p", .vBool true), (str "v", .vStr (str "V")),
       (str "w", .vStr (str "W"))]
      = .ok (str "V") := by
  refine ⟨?_, ?_, by decide⟩
  · intro data p A B hp hpc hfind hsplit
    have hparse := tryIf_parse data p A B hp hpc hfind true
    rw [show mkIf p A B = lb :: ([lb, '#', 'i', 'f', ' ']
      ++ (p ++ ([rb, rb] ++ (A ++ (elseTag ++ (B ++ ifClose)))))) from rfl]
      at hparse ⊢
    unfold ifPass runScan
    rw [List.length_cons, scanT_single_match hparse]
    unfold ifChoose
    rw [hsplit]
    simp
  · intro data p A B hp hpc hfind hsplit
    have hparse := tryUnless_parse data p A B hp hpc hfind true
    rw [show mkUnless p A B = lb :: ([lb, '#', 'u', 'n', 'l', 'e', 's', 's', ' ']
      ++ (p ++ ([rb, rb] ++ (A ++ (elseTag ++ (B ++ unlessClose)))))) from rfl]
      at hparse ⊢
    unfold unlessPass runScan
    rw [List.length_cons, scanT_single_match hparse]
    unfold unlessChoose
    rw [hsplit]
    simp

/-- Witness for C2 at concrete inputs. -/
theorem claim_C2_witness :
    ifPass [(str "ok", Value.vBool true)] (mkIf (str "ok") (str "Y") (str "N"))
      = .ok (str "Y")
  ∧ unlessPass [(str "ok", Value.vBool true)]
      (mkUnless (str "ok") (str "N") (str "Y")) = .ok (str "Y") := by
  constructor
  · exact (claim_C2.1 [(str "ok", .vBool true)] (str "ok") (str "Y") (str "N")
      (by decide) (by decide) (by decide) (by decide)).trans (by decide)
  · exact (claim_C2.2.1 [(str "ok", .vBool true)] (str "ok") (str "N")
      (str "Y") (by decide) (by decide) (by decide) (by decide)).trans
      (by decide)

/-!
## Claim C3
-/

/-- A walk whose segment list contains a deny-listed segment always
returns undefined: the loop exits with undefined at the first bad segment
of any kind, and can never complete. -/
theorem walkPath_dangerous :
    ∀ (segs : List Str) (acc : Value),
      (∃ seg ∈ segs, isDangerousKey (jsTrim seg) = true) →
      walkPath acc segs = .vUndefined := by
  intro segs
  induction segs with
  | nil => intro acc h; obtain ⟨seg, hm, _⟩ := h; cases hm
  | cons s rest ih =>
    intro acc h
    unfold walkPath
    by_cases he : (jsTrim s).isEmpty
    · simp [he]
    · simp only [he, Bool.false_eq_true, if_neg, not_false_eq_true]
      by_cases hd : isDangerousKey (jsTrim s) = true
      · simp [hd]
      · simp only [hd, if_neg, not_false_eq_true, Bool.false_eq_true]
        obtain ⟨seg, hm, hdg⟩ := h
        have hrest : ∃ seg ∈ rest, isDangerousKey (jsTrim seg) = true := by
          cases hm with
          | head => exact absurd hdg hd
          | tail _ hm2 => exact ⟨seg, hm2, hdg⟩
        by_cases hg : (truthy acc && isObjType acc) = true
        · simp only [hg, if_pos]
          cases getOwn acc (jsTrim s) with
          | none => rfl
          | some v => exact ih v hrest
        · simp [hg]

/-- Claim C3: path resolution with the deny-list.  Resolving
"__proto__.x" or "constructor.prototype" against any value yields
undefined; more generally any dotted path other than "." with a segment
whose trimmed text is __proto__, prototype or constructor resolves to
undefined; and the walk returns undefined the moment a step is attempted
on an accumulator that is falsy, not of object type, or lacks the
segment as an own property.  All functions involved are total, so
resolution never throws. -/
theorem claim_C3 :
    (∀ v : Value, getValueByPath v (str "__proto__.x") = .vUndefined
      ∧ getValueByPath v (str "constructor.prototype") = .vUndefined)
  ∧ (∀ (v : Value) (path : Str), path ≠ str "." →
      (∃ seg ∈ splitCh '.' path, isDangerousKey (jsTrim seg) = true) →
      getValueByPath v path = .vUndefined)
  ∧ (∀ (acc : Value) (seg : Str) (rest : List Str),
      jsTrim seg ≠ [] →
      ¬(truthy acc = true ∧ isObjType acc = true
        ∧ getOwn acc (jsTrim seg) ≠ none) →
      walkPath acc (seg :: rest) = .vUndefined) := by
  have part2 : ∀ (v : Value) (path : Str), path ≠ str "." →
      (∃ seg ∈ splitCh '.' path, isDangerousKey (jsTrim seg) = true) →
      getValueByPath v path = .vUndefined := by
    intro v path hdot hex
    unfold getValueByPath
    rw [if_neg hdot]
    by_cases he : path.isEmpty
    · simp [he]
    · simp only [he, Bool.false_eq_true, if_neg, not_false_eq_true]
      exact walkPath_dangerous _ v hex
  refine ⟨?_, part2, ?_⟩
  · intro v
    constructor
    · exact part2 v (str "__proto__.x") (by decide)
        ⟨str "__proto__", by decide, by decide⟩
    · exact part2 v (str "constructor.prototype") (by decide)
        ⟨str "constructor", by decide, by decide⟩
  · intro acc seg rest hne hnot
    unfold walkPath
    simp only [isEmpty_false_of_ne hne, Bool.false_eq_true, if_neg,
      not_false_eq_true]
    by_cases hd : isDangerousKey (jsTrim seg) = true
    · simp [hd]
    · simp only [hd, Bool.false_eq_true, if_neg, not_false_eq_true]
      by_cases hg : (truthy acc && isObjType acc) = true
      · simp only [hg, if_pos]
        cases ho : getOwn acc (jsTrim seg) with
        | none => rfl
        | some w =>
          exact absurd ⟨(Bool.and_eq_true _ _ |>.mp hg).1,
            (Bool.and_eq_true _ _ |>.mp hg).2, by simp [ho]⟩ hnot
      · simp [hg]

/-- Witness for C3 at concrete inputs. -/
theorem claim_C3_witness :
    getValueByPath (vobj [(str "a", Value.vInt 1)]) (str "__proto__.x")
      = Value.vUndefined
  ∧ getValueByPath (vobj [(str "a", Value.vInt 1)]) (str "a.b.prototype")
      = Value.vUndefined
  ∧ walkPath (Value.vInt 7) (str "k" :: []) = Value.vUndefined := by
  refine ⟨(claim_C3.1 (vobj [(str "a", Value.vInt 1)])).1, ?_, ?_⟩
  · exact claim_C3.2.1 (vobj [(str "a", Value.vInt 1)]) (str "a.b.prototype")
      (by decide) ⟨str "prototype", by decide, by decide⟩
  · exact claim_C3.2.2 (Value.vInt 7) (str "k") [] (by decide)
      (by intro hcon; exact absurd hcon.2.1 (by decide))

/-!
## Claim C8
-/

/-- Claim C8: the compile cache.  (1) a compile call preserves the bound:
a cache holding at most cacheSize entries still does after any compile;
(2) compiling text already cached returns the stored renderer id and
leaves the cache unchanged; (3) when an insertion pushes the cache past
capacity, the evicted entry is the earliest-inserted (the head); (4) with
cacheSize 1, compiling A then B then A again re-inserts A under a fresh
renderer id, because A was evicted when B arrived. -/
theorem claim_C8 :
    (∀ (size : Nat) (st : CacheState) (tpl : Str),
      st.cache.length ≤ size →
      ((compileStep size st tpl).1).cache.length ≤ size)
  ∧ (∀ (size : Nat) (st : CacheState) (tpl : Str),
      tpl ∈ cacheKeys st →
      (compileStep size st tpl).1 = st
        ∧ ∃ id, (tpl, id) ∈ st.cache ∧ (compileStep size st tpl).2 = id)
  ∧ (∀ (size : Nat) (st : CacheState) (tpl : Str) (e : Str × Nat)
      (rest : List (Str × Nat)),
      st.cache = e :: rest → st.cache.length = size → tpl ∉ cacheKeys st →
      ((compileStep size st tpl).1).cache = rest ++ [(tpl, st.next)])
  ∧ ((compileStep 1 emptyCache (str "A")).2 = 0
      ∧ ((compileStep 1 emptyCache (str "A")).1).cache = [(str "A", 0)]
      ∧ ((compileStep 1 ((compileStep 1 emptyCache (str "A")).1)
          (str "B")).1).cache = [(str "B", 1)]
      ∧ ((compileStep 1 ((compileStep 1 ((compileStep 1 emptyCache
          (str "A")).1) (str "B")).1) (str "A")).1).cache = [(str "A", 2)]
      ∧ (compileStep 1 ((compileStep 1 ((compileStep 1 emptyCache
          (str "A")).1) (str "B")).1) (str "A")).2 = 2) := by
  refine ⟨?_, ?_, ?_, by decide⟩
  · intro size st tpl hle
    unfold compileStep
    cases hf : st.cache.find? (fun e => e.1 = tpl) with
    | some e => simpa using hle
    | none =>
      simp only []
      by_cases hgt : size < (st.cache ++ [(tpl, st.next)]).length
      · simp only [hgt, if_pos]
        simp only [List.length_tail, List.length_append, List.length_singleton]
        omega
      · simp only [hgt, if_neg, not_false_eq_true]
        simp only [List.length_append, List.length_singleton] at hgt ⊢
        omega
  · intro size st tpl hmem
    have hsome : (st.cache.find? (fun e => e.1 = tpl)).isSome := by
      rw [List.find?_isSome]
      obtain ⟨e, he, heq⟩ := List.mem_map.mp hmem
      exact ⟨e, he, by simp [heq]⟩
    cases hf : st.cache.find? (fun e => e.1 = tpl) with
    | none => rw [hf] at hsome; cases hsome
    | some e =>
      have hmem2 := List.mem_of_find?_eq_some hf
      have hkey : e.1 = tpl := by
        have := List.find?_some hf
        simpa using this
      constructor
      · unfold compileStep
        rw [hf]
      · refine ⟨e.2, ?_, ?_⟩
        · rw [← hkey]; exact hmem2
        · unfold compileStep
          rw [hf]
  · intro size st tpl e rest hc hlen hnm
    have hf : st.cache.find? (fun x => x.1 = tpl) = none := by
      rw [List.find?_eq_none]
      intro x hx
      simp only [decide_eq_true_eq]
      intro hkey
      exact hnm (List.mem_map.mpr ⟨x, hx, hkey⟩)
    unfold compileStep
    rw [hf]
    have hgt : size < (st.cache ++ [(tpl, st.next)]).length := by
      simp [hlen.symm]
    simp only [hgt, if_pos]
    rw [hc]
    rfl

/-- Witness for C8 at concrete inputs. -/
theorem claim_C8_witness :
    (((compileStep 2 { cache := [(str "T", 0)], next := 1 } (str "U")).1).cache.length ≤ 2)
  ∧ ((compileStep 2 { cache := [(str "T", 0)], next := 1 } (str "T")).1
      = { cache := [(str "T", 0)], next := 1 })
  ∧ (((compileStep 1 { cache := [(str "T", 0)], next := 1 } (str "U")).1).cache
      = [] ++ [(str "U", 1)]) := by
  refine ⟨?_, ?_, ?_⟩
  · exact claim_C8.1 2 { cache := [(str "T", 0)], next := 1 } (str "U")
      (by decide)
  · exact (claim_C8.2.1 2 { cache := [(str "T", 0)], next := 1 } (str "T")
      (by decide)).1
  · exact claim_C8.2.2.1 1 { cache := [(str "T", 0)], next := 1 } (str "U")
      (str "T", 0) [] (by decide) (by decide) (by decide)

/-!
## Claim C9
-/

/-- Claim C9: the template below is a single well-formed block comment
for the block-comment grammar (the matcher consumes it entirely), yet the
line-comment pass, which runs first and matches from the same opening up
to the first paired right braces, removes only a prefix of it; rendering
therefore leaves the nonempty tail with the closing delimiter in the
output instead of removing the span totally.  The template reads, in
braces, open-open-bang-dash-dash a close-close b dash-dash-close-close. -/
theorem claim_C9 :
    tryBlockComment true
        ([lb, lb, '!', '-', '-', 'a', rb, rb, 'b', '-', '-', rb, rb])
      = some (.ok [], [])
  ∧ render defaultEngine 1
        ([lb, lb, '!', '-', '-', 'a', rb, rb, 'b', '-', '-', rb, rb]) []
      = .ok (['b', '-', '-', rb, rb])
  ∧ (['b', '-', '-', rb, rb] : Str) ≠ [] := by
  refine ⟨by decide, by decide, by decide⟩

/-!
## Infrastructure for claim C5
-/

/-- The line-comment matcher needs the three-character opening. -/
theorem tryLineComment_none2 {ls : Bool} {s : Str}
    (h : s.take 3 ≠ [lb, lb, '!']) : tryLineComment ls s = none := by
  unfold tryLineComment expectL
  rw [if_neg (by simpa using h)]

/-- The block-comment matcher needs the same three-character opening. -/
theorem tryBlockComment_none2 {ls : Bool} {s : Str}
    (h : s.take 3 ≠ [lb, lb, '!']) : tryBlockComment ls s = none := by
  unfold tryBlockComment expectL
  rw [if_neg]
  intro hc
  apply h
  have h5 : s.take 5 = [lb, lb, '!', '-', '-'] := by simpa using hc
  have h3 : s.take 3 = (s.take 5).take 3 := by
    simp [List.take_take]
  rw [h3, h5]
  rfl

/-- Characters of a line of splitLinesRN come from the split string. -/
theorem mem_splitLinesRN {ch : Char} :
    ∀ (s : Str) {l : Str}, l ∈ splitLinesRN s → ch ∈ l → ch ∈ s := by
  intro s
  induction s using splitLinesRN.induct with
  | case1 =>
    intro l hl hc
    simp only [splitLinesRN, List.mem_singleton] at hl
    subst hl
    cases hc
  | case2 rest ih =>
    intro l hl hc
    simp only [splitLinesRN, List.mem_cons] at hl
    rcases hl with h | h
    · subst h; cases hc
    · exact List.mem_cons_of_mem _ (List.mem_cons_of_mem _ (ih h hc))
  | case3 rest ih =>
    intro l hl hc
    simp only [splitLinesRN, List.mem_cons] at hl
    rcases hl with h | h
    · subst h; cases hc
    · exact List.mem_cons_of_mem _ (ih h hc)
  | case4 c rest hne1 hne2 hh tt heqr ih =>
    intro l hl hc
    have heq : splitLinesRN (c :: rest) = (c :: hh) :: tt := by
      rw [splitLinesRN.eq_def]
      split
      · rename_i hcontr
        exact List.noConfusion hcontr
      · rename_i r1 hcontr
        cases hcontr
        exact (hne1 r1 rfl rfl).elim
      · rename_i r1 hcontr
        cases hcontr
        exact (hne2 rfl).elim
      · rename_i c2 r1 hcontr
        cases hcontr
        rw [heqr]
    rw [heq] at hl
    rcases List.mem_cons.mp hl with h | h
    · subst h
      rcases List.mem_cons.mp hc with h2 | h2
      · subst h2; exact List.mem_cons_self _ _
      · exact List.mem_cons_of_mem _
          (ih (by rw [heqr]; exact List.mem_cons_self _ _) h2)
    · exact List.mem_cons_of_mem _
        (ih (by rw [heqr]; exact List.mem_cons_of_mem _ h) hc)
  | case5 c rest hne1 hne2 heqr ih =>
    intro l hl hc
    have heq : splitLinesRN (c :: rest) = [[c]] := by
      rw [splitLinesRN.eq_def]
      split
      · rename_i hcontr
        exact List.noConfusion hcontr
      · rename_i r1 hcontr
        cases hcontr
        exact (hne1 r1 rfl rfl).elim
      · rename_i r1 hcontr
        cases hcontr
        exact (hne2 rfl).elim
      · rename_i c2 r1 hcontr
        cases hcontr
        rw [heqr]
    rw [heq] at hl
    simp only [List.mem_singleton] at hl
    subst hl
    simp only [List.mem_singleton] at hc
    subst hc
    exact List.mem_cons_self _ _

/-- Characters of a join come from the separator or from the parts. -/
theorem mem_joinCh {ch sep : Char} :
    ∀ (ls : List Str), ch ∈ joinCh sep ls → ch = sep ∨ ∃ l ∈ ls, ch ∈ l := by
  intro ls
  induction ls with
  | nil => intro h; cases h
  | cons x xs ih =>
    intro h
    cases xs with
    | nil =>
      exact Or.inr ⟨x, List.mem_cons_self x [], h⟩
    | cons y ys =>
      rw [show joinCh sep (x :: y :: ys) = x ++ sep :: joinCh sep (y :: ys)
        from rfl] at h
      rcases List.mem_append.mp h with h1 | h1
      · exact Or.inr ⟨x, List.mem_cons_self x (y :: ys), h1⟩
      · rcases List.mem_cons.mp h1 with h2 | h2
        · exact Or.inl h2
        · rcases ih h2 with h3 | ⟨l, hl, hcl⟩
          · exact Or.inl h3
          · exact Or.inr ⟨l, List.mem_cons_of_mem x hl, hcl⟩

/-- Every line produced by the indentation mapping is a source line,
prefixed or unchanged. -/
theorem mem_indentLines {ind : Str} {lines : List Str} {l : Str}
    (h : l ∈ indentLines ind lines) :
    ∃ l0 ∈ lines, l = ind ++ l0 ∨ l = l0 := by
  unfold indentLines at h
  rcases List.mem_map.mp h with ⟨e, he, hl⟩
  have he2 : e.2 ∈ lines := by
    have hm := List.mem_map_of_mem Prod.snd he
    rwa [List.enum_map_snd] at hm
  refine ⟨e.2, he2, ?_⟩
  by_cases h0 : e.1 = 0
  · left; rw [← hl]; simp [h0]
  · by_cases hemp : e.2.isEmpty
    · right; rw [← hl]; simp [h0, hemp]
    · left; rw [← hl]; simp [h0, hemp]

/-- The indentation mapping introduces no open brace. -/
theorem lb_not_mem_applyIndent {ind p : Str} (hi : lb ∉ ind) (hp : lb ∉ p) :
    lb ∉ applyIndent ind p := by
  intro hmem
  unfold applyIndent at hmem
  rcases mem_joinCh _ hmem with h | ⟨l, hl, hcl⟩
  · exact absurd h (by decide)
  · rcases mem_indentLines hl with ⟨l0, hl0, heq | heq⟩
    · subst heq
      rcases List.mem_append.mp hcl with h1 | h1
      · exact hi h1
      · exact hp (mem_splitLinesRN p hl0 h1)
    · subst heq
      exact hp (mem_splitLinesRN p hl0 hcl)

/-- The partial matcher fires on an indented partial tag at a line start,
capturing the indentation. -/
theorem tryPartial_parse {eng : Engine} {rcb : Str → Ctx → Except RErr Str}
    {data : Ctx} {ind : Str} (hind : ∀ c ∈ ind, isIndentCh c = true) :
    tryPartial eng rcb data true (ind ++ ptag)
      = some (partialAct eng rcb data ind (str "p") none, []) := by
  unfold tryPartial
  have ht : (ind ++ ptag).takeWhile isIndentCh = ind := by
    rw [show (ind ++ ptag) = ind ++ lb :: [lb, '>', ' ', 'p', rb, rb] from rfl]
    exact takeWhile_append_sat hind (by decide)
  rw [ht, drop_len_append]
  rfl

/-- The replacement of a matched partial tag: the recursively rendered
brace-free partial text behind the captured indentation. -/
theorem partialAct_indent {ptext : Str} {fuel : Nat} {data : Ctx} {ind : Str}
    (hne : ind ≠ []) (hne2 : ptext ≠ []) (hlb : lb ∉ ptext) :
    partialAct (withPartial ptext) (render (withPartial ptext) (fuel + 1)) data
      ind (str "p") none = .ok (applyIndent ind ptext) := by
  have h0 : partialAct (withPartial ptext)
      (render (withPartial ptext) (fuel + 1)) data ind (str "p") none
      = if ptext.isEmpty then (.ok [] : Except RErr Str)
        else Except.bind (render (withPartial ptext) (fuel + 1) ptext data)
          (fun rendered =>
            Except.pure
              (if ind.isEmpty then rendered else applyIndent ind rendered)) :=
    rfl
  rw [h0, if_neg (by simp [isEmpty_false_of_ne hne2]),
    render_braceFree _ fuel ptext data hlb]
  simp [isEmpty_false_of_ne hne, Except.bind, Except.pure]

/-- The whole partial pass on an indented partial tag. -/
theorem partialPass_indent {ptext : Str} {fuel : Nat} {data : Ctx} {ind : Str}
    (hind : ∀ c ∈ ind, isIndentCh c = true) (hne : ind ≠ [])
    (hne2 : ptext ≠ []) (hlb : lb ∉ ptext) :
    partialPass (withPartial ptext) (render (withPartial ptext) (fuel + 1))
      data (ind ++ ptag) = .ok (applyIndent ind ptext) := by
  have hmatch : tryPartial (withPartial ptext)
      (render (withPartial ptext) (fuel + 1)) data true (ind ++ ptag)
      = some (.ok (applyIndent ind ptext), []) := by
    rw [tryPartial_parse hind, partialAct_indent hne hne2 hlb]
  rcases ind with _ | ⟨c, t⟩
  · exact absurd rfl hne
  · unfold partialPass runScan
    rw [show ((c :: t) ++ ptag) = c :: (t ++ ptag) from rfl, List.length_cons]
    exact scanT_single_match hmatch

/-- The line-comment matcher matches nowhere inside the bare tag. -/
theorem tryLineComment_ptag_suffix (j : Nat) (ls : Bool) :
    tryLineComment ls (ptag.drop j) = none := by
  match j with
  | 0 => rfl
  | 1 => rfl
  | 2 => rfl
  | 3 => rfl
  | 4 => rfl
  | 5 => rfl
  | 6 => rfl
  | n + 7 =>
    rw [show ptag.drop (n + 7) = [] from
      List.drop_eq_nil_of_le (by simp [ptag])]
    rfl

/-- The block-comment matcher matches nowhere inside the bare tag. -/
theorem tryBlockComment_ptag_suffix (j : Nat) (ls : Bool) :
    tryBlockComment ls (ptag.drop j) = none := by
  match j with
  | 0 => rfl
  | 1 => rfl
  | 2 => rfl
  | 3 => rfl
  | 4 => rfl
  | 5 => rfl
  | 6 => rfl
  | n + 7 =>
    rw [show ptag.drop (n + 7) = [] from
      List.drop_eq_nil_of_le (by simp [ptag])]
    rfl

/-- The line-comment pass leaves the indented partial template unchanged. -/
theorem lineCommentPass_indPtag {ind : Str}
    (hind : ∀ c ∈ ind, isIndentCh c = true) :
    lineCommentPass (ind ++ ptag) = .ok (ind ++ ptag) := by
  unfold lineCommentPass
  apply runScan_noMatch
  intro i ls
  rw [List.drop_append_eq_append_drop]
  cases hd : ind.drop i with
  | nil => rw [List.nil_append]; exact tryLineComment_ptag_suffix _ _
  | cons c d =>
    have hc : c ∈ ind := List.drop_subset i ind (hd ▸ List.mem_cons_self c d)
    have hic := hind c hc
    have hclb : c ≠ lb := by
      intro e; subst e; exact absurd hic (by decide)
    rw [List.cons_append]
    unfold tryLineComment
    rw [expectL_head_ne hclb]

/-- The block-comment pass leaves the indented partial template unchanged. -/
theorem blockCommentPass_indPtag {ind : Str}
    (hind : ∀ c ∈ ind, isIndentCh c = true) :
    blockCommentPass (ind ++ ptag) = .ok (ind ++ ptag) := by
  unfold blockCommentPass
  apply runScan_noMatch
  intro i ls
  rw [List.drop_append_eq_append_drop]
  cases hd : ind.drop i with
  | nil => rw [List.nil_append]; exact tryBlockComment_ptag_suffix _ _
  | cons c d =>
    have hc : c ∈ ind := List.drop_subset i ind (hd ▸ List.mem_cons_self c d)
    have hic := hind c hc
    have hclb : c ≠ lb := by
      intro e; subst e; exact absurd hic (by decide)
    rw [List.cons_append]
    unfold tryBlockComment
    rw [expectL_head_ne hclb]

/-- The per-line reading of the indentation mapping: the first line is
prefixed, every other non-blank line is prefixed, every other blank line
is unchanged. -/
theorem indentLines_getD (ind : Str) (lines : List Str) (i : Nat)
    (h : i < lines.length) :
    (indentLines ind lines).getD i [] =
      if i = 0 then ind ++ lines.getD i []
      else if (lines.getD i []).isEmpty then lines.getD i []
      else ind ++ lines.getD i [] := by
  have hlen : i < (indentLines ind lines).length := by
    simp [indentLines]; exact h
  rw [List.getD_eq_getElem?_getD, List.getD_eq_getElem?_getD,
    List.getElem?_eq_getElem hlen, List.getElem?_eq_getElem h]
  simp only [Option.getD_some]
  unfold indentLines
  rw [List.getElem_map, List.getElem_enum]

/-- C5 (amended): for a registered partial with non-empty text invoked
behind pure leading whitespace on its line, the rendered output is the
partial text under the indentation mapping; per line this prefixes the
first line and every non-blank line with the captured whitespace, while
later blank lines stay unchanged.  A registered partial with empty text
falls under the source's falsiness guard and is treated as unknown:
empty output, or UnknownPartial under strict mode, no indentation.  The
spec example (partial text L1\nL2 behind two spaces) renders both lines
prefixed. -/
theorem claim_C5 :
    (∀ (ptext ind : Str) (data : Ctx) (fuel : Nat),
        (∀ c ∈ ind, isIndentCh c = true) → ind ≠ [] → ptext ≠ [] →
        lb ∉ ptext →
        render (withPartial ptext) (fuel + 2) (ind ++ ptag) data
          = .ok (applyIndent ind ptext)) ∧
    (∀ (eng : Engine) (rcb : Str → Ctx → Except RErr Str) (data : Ctx)
        (ind nm : Str) (octx : Option Str),
        lookupReg eng.partials (jsTrim nm) = some [] →
        partialAct eng rcb data ind nm octx
          = if eng.opts.strict then .error (.unknownPartial (jsTrim nm))
            else .ok []) ∧
    (∀ (ind rendered : Str) (i : Nat),
        i < (splitLinesRN rendered).length →
        (indentLines ind (splitLinesRN rendered)).getD i [] =
          if i = 0 then ind ++ (splitLinesRN rendered).getD i []
          else if ((splitLinesRN rendered).getD i []).isEmpty then
            (splitLinesRN rendered).getD i []
          else ind ++ (splitLinesRN rendered).getD i []) ∧
    render (withPartial ['L', '1', '\n', 'L', '2']) 2 ([' ', ' '] ++ ptag) []
      = .ok [' ', ' ', 'L', '1', '\n', ' ', ' ', 'L', '2'] := by
  refine ⟨?_, ?_, fun ind rendered i h => indentLines_getD ind _ i h,
    by decide⟩
  case refine_2 =>
    intro eng rcb data ind nm octx hlk
    simp only [partialAct, hlk]
    rfl
  intro ptext ind data fuel hind hne hne2 hlbp
  have hlbi : lb ∉ ind := fun hm => absurd (hind lb hm) (by decide)
  have hlbt : lb ∉ applyIndent ind ptext := lb_not_mem_applyIndent hlbi hlbp
  have e1 := lineCommentPass_indPtag hind
  have e2 := blockCommentPass_indPtag hind
  have e3 := @partialPass_indent ptext fuel data ind hind hne hne2 hlbp
  have e4 : standalonePass (applyIndent ind ptext)
      = .ok (applyIndent ind ptext) :=
    runScan_noMatch nfNL tryStandalone _
      (fun i ls2 => tryStandalone_none (lb_not_mem_drop i hlbt))
  have e5 : sectionPass (withPartial ptext) (render (withPartial ptext) (fuel + 1))
      data (applyIndent ind ptext) = .ok (applyIndent ind ptext) :=
    runScan_noMatch nfNone _ _
      (fun i ls2 => trySection_none (lb_not_mem_drop i hlbt))
  have e6 : invertedPass (render (withPartial ptext) (fuel + 1))
      data (applyIndent ind ptext) = .ok (applyIndent ind ptext) :=
    runScan_noMatch nfNone _ _
      (fun i ls2 => tryInverted_none (lb_not_mem_drop i hlbt))
  have e7 : ifPass data (applyIndent ind ptext) = .ok (applyIndent ind ptext) :=
    runScan_noMatch nfNone _ _
      (fun i ls2 => tryIf_none (lb_not_mem_drop i hlbt))
  have e8 : unlessPass data (applyIndent ind ptext)
      = .ok (applyIndent ind ptext) :=
    runScan_noMatch nfNone _ _
      (fun i ls2 => tryUnless_none (lb_not_mem_drop i hlbt))
  have e9 : eachPass (render (withPartial ptext) (fuel + 1)) data
      (applyIndent ind ptext) = .ok (applyIndent ind ptext) :=
    runScan_noMatch nfNone _ _
      (fun i ls2 => tryEach_none (lb_not_mem_drop i hlbt))
  have e10 : triplePass (withPartial ptext) data (applyIndent ind ptext)
      = .ok (applyIndent ind ptext) :=
    runScan_noMatch nfNone _ _
      (fun i ls2 => tryTriple_none (lb_not_mem_drop i hlbt))
  have e11 : varPass (withPartial ptext) data (applyIndent ind ptext)
      = .ok (applyIndent ind ptext) :=
    runScan_noMatch nfNone _ _
      (fun i ls2 => tryVar_none (lb_not_mem_drop i hlbt))
  have hr : render (withPartial ptext) ((fuel + 1) + 1) (ind ++ ptag) data
      = Except.bind (lineCommentPass (ind ++ ptag)) (fun o1 =>
        Except.bind (blockCommentPass o1) (fun o2 =>
        Except.bind (partialPass (withPartial ptext)
            (render (withPartial ptext) (fuel + 1)) data o2) (fun o3 =>
        Except.bind (standalonePass o3) (fun o4 =>
        Except.bind (sectionPass (withPartial ptext)
            (render (withPartial ptext) (fuel + 1)) data o4) (fun o5 =>
        Except.bind (invertedPass
            (render (withPartial ptext) (fuel + 1)) data o5) (fun o6 =>
        Except.bind (ifPass data o6) (fun o7 =>
        Except.bind (unlessPass data o7) (fun o8 =>
        Except.bind (eachPass
            (render (withPartial ptext) (fuel + 1)) data o8) (fun o9 =>
        Except.bind (triplePass (withPartial ptext) data o9) (fun o10 =>
        Except.bind (varPass (withPartial ptext) data o10) (fun o11 =>
        Except.pure o11))))))))))) := rfl
  show render (withPartial ptext) ((fuel + 1) + 1) (ind ++ ptag) data
    = .ok (applyIndent ind ptext)
  rw [hr]
  simp only [e1, e2, e3, e4, e5, e6, e7, e8, e9, e10, e11, Except.bind,
    Except.pure]

theorem claim_C5_witness :
    render (withPartial ['A']) 2 ([' ', ' '] ++ ptag) []
      = .ok (applyIndent [' ', ' '] ['A']) ∧
    partialAct (withPartial []) (fun t _ => .ok t) [] [' '] (str "p") none
      = .ok [] :=
  ⟨claim_C5.1 ['A'] [' ', ' '] [] 0 (by decide) (by decide) (by decide)
    (by decide),
   claim_C5.2.1 (withPartial []) (fun t _ => .ok t) [] [' '] (str "p") none
    rfl⟩

/-- The spec sentence "every output line (including blank ones) is
prefixed" fails on a partial whose rendering contains an interior blank
line: the blank line is left unprefixed. -/
theorem claim_C5_cex :
    render (withPartial ['A', '\n', '\n', 'B']) 2 ([' ', ' '] ++ ptag) []
      = .ok [' ', ' ', 'A', '\n', '\n', ' ', ' ', 'B'] ∧
    ([' ', ' ', 'A', '\n', '\n', ' ', ' ', 'B'] : Str)
      ≠ [' ', ' ', 'A', '\n', ' ', ' ', '\n', ' ', ' ', 'B'] := by
  decide

/-- C1 (amended): with the default configuration
render (dvar v) substitutes the escaped string for every string value;
render (tvar v) yields the raw string for every escapeHtml setting
PROVIDED the string itself parses as no double-brace tag at any position —
the triple-brace pass runs before the variable pass, so template syntax
inside the value is processed further. -/
theorem claim_C1 :
    (∀ (s : Str) (fuel : Nat),
        render defaultEngine (fuel + 1) (dvar (str "v"))
          [(str "v", Value.vStr s)] = .ok (escapeHtml s)) ∧
    (∀ (b : Bool) (s : Str) (fuel : Nat),
        (∀ i, tryVarParse (s.drop i) = none) →
        render (engEsc b) (fuel + 1) (tvar (str "v"))
          [(str "v", Value.vStr s)] = .ok s) := by
  constructor
  · intro s fuel
    have h : render defaultEngine (fuel + 1) (dvar (str "v"))
        [(str "v", Value.vStr s)] = .ok (escapeHtml s ++ []) := rfl
    simpa using h
  · intro b s fuel hs
    have h1 : render (engEsc b) (fuel + 1) (tvar (str "v"))
        [(str "v", Value.vStr s)]
        = Except.bind (varPass (engEsc b) [(str "v", Value.vStr s)] (s ++ []))
            (fun o11 => Except.pure o11) := rfl
    rw [List.append_nil] at h1
    have hvp : varPass (engEsc b) [(str "v", Value.vStr s)] s = .ok s :=
      runScan_noMatch nfNone (tryVar (engEsc b) [(str "v", Value.vStr s)]) s
        (fun i ls2 => by unfold tryVar; rw [hs i]; rfl)
    rw [hvp] at h1
    simpa [Except.bind, Except.pure] using h1

theorem claim_C1_witness :
    (render defaultEngine 1 (dvar (str "v")) [(str "v", Value.vStr ['<'])]
      = .ok (escapeHtml ['<'])) ∧
    (render (engEsc false) 1 (tvar (str "v")) [(str "v", Value.vStr ['a'])]
      = .ok ['a']) :=
  ⟨claim_C1.1 ['<'] 0,
   claim_C1.2 false ['a'] 0 (fun i => by
     cases i with
     | zero => rfl
     | succ n =>
       rw [show (['a'] : Str).drop (n + 1) = [] from
         List.drop_eq_nil_of_le (by simp)]
       rfl)⟩

/-- The spec equation render (tvar v) = s fails when s itself contains a
double-brace tag: with s = dvar x the raw substitution is rescanned by the
later variable pass and x (missing) renders empty. -/
theorem claim_C1_cex :
    render defaultEngine 2 (tvar (str "v"))
      [(str "v", Value.vStr (dvar (str "x")))] = .ok [] ∧
    ([] : Str) ≠ dvar (str "x") := by
  decide

/-- Splitting on an absent character returns the whole string. -/
theorem splitCh_not_mem {c : Char} : ∀ {s : Str}, c ∉ s → splitCh c s = [s] := by
  intro s
  induction s with
  | nil => intro h; rfl
  | cons x rest ih =>
    intro h
    have hx : ¬(x = c) := fun e => h (e ▸ List.mem_cons_self x rest)
    have hr := ih (fun hm => h (List.mem_cons_of_mem x hm))
    simp [splitCh, hr, hx]

/-- One unknown filter on the pipeline: UnknownHelper under strict mode,
else the value passes through unchanged. -/
theorem applyFilters_unknown {eng : Engine} {data : Ctx} {v : Value} {h : Str}
    (hne : h ≠ []) (hcol : ':' ∉ h)
    (hno : lookupReg eng.helpers (jsTrim h) = none) :
    applyFilters eng v [h] data
      = if eng.opts.strict then .error (.unknownHelper (jsTrim h))
        else pure v := by
  have hfs : filterStep eng data v h
      = if eng.opts.strict then .error (.unknownHelper (jsTrim h))
        else pure v := by
    unfold filterStep
    rw [if_neg (by simp [isEmpty_false_of_ne hne])]
    simp only [splitCh_not_mem hcol, List.headI, List.tail_cons]
    rw [hno]
    cases hstr : eng.opts.strict <;> rfl
  rw [show applyFilters eng v [h] data
      = Except.bind (filterStep eng data v h)
          (fun v2 => applyFilters eng v2 [] data) from rfl]
  rw [hfs]
  cases hstr : eng.opts.strict <;> rfl

/-- C7 (amended): an unresolved helper name in the filter pipeline passes
the value through unchanged in non-strict mode and raises UnknownHelper in
strict mode; but the full double-brace render of the piped variable still
HTML-escapes the passed-through value under the default configuration, so
the non-strict output is the escaped string, not s itself. -/
theorem claim_C7 :
    (∀ (eng : Engine) (data : Ctx) (v : Value) (h : Str),
        h ≠ [] → ':' ∉ h → lookupReg eng.helpers (jsTrim h) = none →
        applyFilters eng v [h] data
          = if eng.opts.strict then .error (.unknownHelper (jsTrim h))
            else pure v) ∧
    (∀ (sb : Bool) (s : Str) (fuel : Nat),
        render (engH sb []) (fuel + 1) [lb, lb, 'x', '|', 'h', rb, rb]
          [(str "x", Value.vStr s)]
          = if sb then .error (.unknownHelper (str "h"))
            else .ok (escapeHtml s)) := by
  constructor
  · intro eng data v h hne hcol hno
    exact applyFilters_unknown hne hcol hno
  · intro sb s fuel
    cases sb with
    | true => rfl
    | false =>
      have h0 : render (engH false []) (fuel + 1)
          [lb, lb, 'x', '|', 'h', rb, rb] [(str "x", Value.vStr s)]
          = .ok (escapeHtml s ++ []) := rfl
      simpa using h0

theorem claim_C7_witness :
    applyFilters defaultEngine (Value.vInt 1) [str "h"] []
      = pure (Value.vInt 1) ∧
    render (engH true []) 1 [lb, lb, 'x', '|', 'h', rb, rb]
      [(str "x", Value.vStr ['<'])] = .error (.unknownHelper (str "h")) :=
  ⟨claim_C7.1 defaultEngine [] (Value.vInt 1) (str "h") (by decide) (by decide)
    rfl,
   claim_C7.2 true ['<'] 0⟩

/-- The spec sentence "non-strict render of x piped through an unknown
helper returns s unchanged" fails for s containing markup: the value
passes the filter unchanged but is then escaped on output. -/
theorem claim_C7_cex :
    render (engH false []) 1 [lb, lb, 'x', '|', 'h', rb, rb]
      [(str "x", Value.vStr ['<'])] = .ok (str "&lt;") ∧
    str "&lt;" ≠ ['<'] := by
  decide

/-!
## Claim C6: lambda errors are caught locally; only strict errors escape
-/

/-- The double-brace act propagates a filter-pipeline error. -/
theorem varActOn_err {eng : Engine} {data : Ctx} {path s : Str}
    {fs : List Str} {er : RErr} (hfs : fs.isEmpty = false)
    (haf : applyFilters eng (Value.vStr s) fs data = .error er) :
    varActOn eng data path (Value.vStr s) fs = .error er := by
  unfold varActOn
  dsimp only
  rw [hfs, if_neg (show ¬(false = true) by decide), haf]
  rfl

/-- C6 (amended): a throwing lambda used as a variable or as a section
renders as empty output and raises nothing (the lambda call sites sit in
try/catch).  With both strict options off AND no registered helper that
throws, a render never returns an error; the result is an error alone or
the full output alone, never partial output.  But a found helper is
called with no try/catch - applyFilters returns whatever the helper body
does - so an exception from a registered helper body propagates out of a
fully non-strict render, beyond the three strict-mode errors. -/
theorem claim_C6 :
    (∀ (data : Ctx) (fuel : Nat),
        getValueByPath (vobj data) (str "f") = .vLam .lamThrow →
        render defaultEngine (fuel + 1) (dvar (str "f")) data = .ok []) ∧
    (∀ (data : Ctx) (fuel : Nat),
        getValueByPath (vobj data) (str "f") = .vLam .lamThrow →
        render defaultEngine (fuel + 1)
          [lb, lb, '#', 'f', rb, rb, 'X', lb, lb, '/', 'f', rb, rb] data
          = .ok []) ∧
    (∀ (eng : Engine), eng.opts.strict = false →
        eng.opts.strictVariables = false → HelpersOk eng →
        ∀ (fuel : Nat) (tpl : Str) (data : Ctx),
        isOkE (render eng fuel tpl data)) ∧
    (∀ (eng : Engine) (data : Ctx) (v : Value) (h : Str) (hf : HelperFn),
        h ≠ [] → ':' ∉ h →
        lookupReg eng.helpers (jsTrim h) = some hf →
        applyFilters eng v [h] data = hf v []) ∧
    (∀ (hf : HelperFn) (s : Str) (er : RErr) (fuel : Nat),
        hf (Value.vStr s) [] = .error er →
        render (engH false [(str "bm", hf)]) (fuel + 1)
          [lb, lb, 'x', '|', 'b', 'm', rb, rb] [(str "x", Value.vStr s)]
          = .error er) := by
  refine ⟨?_, ?_, ?_, ?_, ?_⟩
  · intro data fuel hlam
    have h0 : render defaultEngine (fuel + 1) (dvar (str "f")) data
        = Except.bind
            (Except.bind (varActOn defaultEngine data (str "f")
                (getValueByPath (vobj data) (str "f")) [])
              (fun x => Except.pure (x ++ [])))
            (fun o11 => Except.pure o11) := rfl
    rw [h0, hlam]
    rfl
  · intro data fuel hlam
    have h0 : render defaultEngine (fuel + 1)
        [lb, lb, '#', 'f', rb, rb, 'X', lb, lb, '/', 'f', rb, rb] data
        = Except.bind
            (Except.bind (sectionActOn defaultEngine
                (render defaultEngine fuel) data
                (getValueByPath (vobj data) (str "f")) (str "X"))
              (fun x => Except.pure (x ++ [])))
            (fun o5 =>
              Except.bind (invertedPass (render defaultEngine fuel) data o5)
                (fun o6 => Except.bind (ifPass data o6)
                (fun o7 => Except.bind (unlessPass data o7)
                (fun o8 => Except.bind
                    (eachPass (render defaultEngine fuel) data o8)
                (fun o9 => Except.bind (triplePass defaultEngine data o9)
                (fun o10 => Except.bind (varPass defaultEngine data o10)
                (fun o11 => Except.pure o11))))))) := rfl
    rw [h0, hlam]
    rfl
  · intro eng h1 h2 hh fuel tpl data
    exact render_ok eng h1 h2 hh fuel tpl data
  · intro eng data v h hf hne hcol hlk
    have hfs : filterStep eng data v h = hf v [] := by
      unfold filterStep
      rw [if_neg (by simp [isEmpty_false_of_ne hne])]
      simp only [splitCh_not_mem hcol, List.headI, List.tail_cons]
      rw [hlk]
      rfl
    rw [show applyFilters eng v [h] data
        = Except.bind (filterStep eng data v h)
            (fun v2 => applyFilters eng v2 [] data) from rfl]
    rw [hfs]
    cases hfv : hf v [] <;> rfl
  · intro hf s er fuel hthrow
    have haf : applyFilters (engH false [(str "bm", hf)]) (Value.vStr s)
        [str "bm"] [(str "x", Value.vStr s)] = .error er := by
      have hstep : filterStep (engH false [(str "bm", hf)])
          [(str "x", Value.vStr s)] (Value.vStr s) (str "bm")
          = hf (Value.vStr s) [] := rfl
      rw [show applyFilters (engH false [(str "bm", hf)]) (Value.vStr s)
          [str "bm"] [(str "x", Value.vStr s)]
          = Except.bind (filterStep (engH false [(str "bm", hf)])
              [(str "x", Value.vStr s)] (Value.vStr s) (str "bm"))
            (fun v2 => applyFilters (engH false [(str "bm", hf)]) v2 []
              [(str "x", Value.vStr s)]) from rfl]
      rw [hstep, hthrow]
      rfl
    have hva : varActOn (engH false [(str "bm", hf)])
        [(str "x", Value.vStr s)] (str "x") (Value.vStr s) [str "bm"]
        = .error er := varActOn_err rfl haf
    have h0 : render (engH false [(str "bm", hf)]) (fuel + 1)
        [lb, lb, 'x', '|', 'b', 'm', rb, rb] [(str "x", Value.vStr s)]
        = Except.bind
            (Except.bind (varActOn (engH false [(str "bm", hf)])
                [(str "x", Value.vStr s)] (str "x") (Value.vStr s)
                [str "bm"])
              (fun x => Except.pure (x ++ [])))
            (fun o11 => Except.pure o11) := rfl
    rw [h0, hva]
    rfl

theorem claim_C6_witness :
    render defaultEngine 1 (dvar (str "f"))
      [(str "f", Value.vLam LamSpec.lamThrow)] = .ok [] ∧
    render defaultEngine 1
      [lb, lb, '#', 'f', rb, rb, 'X', lb, lb, '/', 'f', rb, rb]
      [(str "f", Value.vLam LamSpec.lamThrow)] = .ok [] ∧
    isOkE (render defaultEngine 1 (dvar (str "v")) []) ∧
    applyFilters engBoom (Value.vInt 1) [str "bm"] []
      = .error (.userThrown (str "bang")) ∧
    render (engH false [(str "bm",
        fun _ _ => .error (.userThrown (str "bang")))]) 1
      [lb, lb, 'x', '|', 'b', 'm', rb, rb] [(str "x", Value.vStr ['a'])]
      = .error (.userThrown (str "bang")) :=
  ⟨claim_C6.1 [(str "f", Value.vLam LamSpec.lamThrow)] 0 (by rfl),
   claim_C6.2.1 [(str "f", Value.vLam LamSpec.lamThrow)] 0 (by rfl),
   claim_C6.2.2.1 defaultEngine rfl rfl
     (fun e he => absurd he (List.not_mem_nil e)) 1 (dvar (str "v")) [],
   claim_C6.2.2.2.1 engBoom [] (Value.vInt 1) (str "bm")
     (fun _ _ => (Except.error (RErr.userThrown (str "bang"))
       : Except RErr Value))
     (by decide) (by decide) rfl,
   claim_C6.2.2.2.2
     (fun _ _ => (Except.error (RErr.userThrown (str "bang"))
       : Except RErr Value))
     ['a'] (.userThrown (str "bang")) 0 rfl⟩

/-- The spec clause "the only errors that propagate out of render are the
three strict-mode errors" fails once a registered helper throws: with
both strict options off, the helper's exception leaves render uncaught,
and it is none of the three strict errors. -/
theorem claim_C6_cex :
    render engBoom 1 [lb, lb, 'x', '|', 'b', 'm', rb, rb]
      [(str "x", Value.vStr ['a'])] = .error (.userThrown (str "bang")) ∧
    engBoom.opts.strict = false ∧
    engBoom.opts.strictVariables = false ∧
    RErr.userThrown (str "bang") ≠ RErr.unknownHelper (str "bang") ∧
    RErr.userThrown (str "bang") ≠ RErr.unknownPartial (str "bang") ∧
    RErr.userThrown (str "bang") ≠ RErr.unknownVariable (str "bang") := by
  decide

/-!
## Claim C4: the each pass
-/

/-- Round trip of the array spine. -/
theorem ValList.toList_ofList :
    ∀ (l : List Value), (ValList.ofList l).toList = l := by
  intro l
  induction l with
  | nil => rfl
  | cons v t ih => simp [ValList.ofList, ValList.toList, ih]

/-- A one-match scan with an arbitrary replacement computation consuming
the whole text returns exactly that computation's result. -/
theorem scanT_single_match_result {nf : Char → Bool}
    {tf : Bool → Str → Option (Except RErr Str × Str)} {f : Nat} {ls : Bool}
    {c : Char} {rest : Str} {r : Except RErr Str}
    (h : tf ls (c :: rest) = some (r, [])) :
    scanT nf tf (f + 1) ls (c :: rest) = r := by
  rw [scanT, h]
  cases r with
  | error e => rfl
  | ok v => cases f <;> simp [scanT, Bind.bind, Except.bind, Pure.pure,
      Except.pure]

theorem tryEach_parse (rcb : Str → Ctx → Except RErr Str) (data : Ctx)
    (p L E : Str) (hp : p ≠ [])
    (hpc : ∀ c ∈ p, (!(c = rb)) = true)
    (hfind : findSub eachClose (L ++ (elseTag ++ (E ++ eachClose)))
      = some (L ++ (elseTag ++ E), []))
    (ls : Bool) :
    tryEach rcb data ls (mkEach p L E)
      = some (eachAct rcb data p (L ++ (elseTag ++ E)), []) := by
  unfold tryEach mkEach
  rw [expectL_append]
  have ht : (p ++ ([rb, rb] ++ (L ++ (elseTag ++ (E ++ eachClose))))).takeWhile
      (fun c => !(c = rb)) = p := by
    have heq : (p ++ ([rb, rb] ++ (L ++ (elseTag ++ (E ++ eachClose)))))
        = p ++ rb :: (rb :: (L ++ (elseTag ++ (E ++ eachClose)))) := by simp
    rw [heq]
    exact takeWhile_append_sat hpc (by simp)
  simp only [ht, isEmpty_false_of_ne hp, drop_len_append]
  rw [expectL_append]
  dsimp only
  rw [show ([lb, lb, '/', 'e', 'a', 'c', 'h', rb, rb] : Str) = eachClose
    from rfl, hfind]

/-- C4 (amended): the each pass resolves the path and acts on the value;
a non-array or empty array substitutes the else-part verbatim with no
recursive render (the result does not depend on the render callback); an
array of length n renders the n meta-substituted loop bodies recursively,
each against the context extended with this bound to the element, and
concatenates them in order.  The meta substitutions follow JavaScript
replacement-string splicing (metaSubst / dollarSub), not plain text
insertion, and the closed instance shows @index/@first/@last take the
values i, "true" iff i = 0, and "true" iff i = n-1. -/
theorem claim_C4 :
    (∀ (rcb : Str → Ctx → Except RErr Str) (data : Ctx) (p L E : Str),
        p ≠ [] → (∀ c ∈ p, (!(c = rb)) = true) →
        findSub eachClose (L ++ (elseTag ++ (E ++ eachClose)))
          = some (L ++ (elseTag ++ E), []) →
        splitElse (L ++ (elseTag ++ E)) = (L, some E) →
        eachPass rcb data (mkEach p L E)
          = eachActOn rcb data (getValueByPath (vobj data) (jsTrim p)) L E) ∧
    (∀ (rcb : Str → Ctx → Except RErr Str) (data : Ctx) (arr : Value)
        (L E : Str), (∀ xs, arr ≠ Value.vArr xs) →
        eachActOn rcb data arr L E = .ok E) ∧
    (∀ (rcb : Str → Ctx → Except RErr Str) (data : Ctx) (L E : Str),
        eachActOn rcb data (varr []) L E = .ok E) ∧
    (∀ (rcb : Str → Ctx → Except RErr Str) (data : Ctx) (items : List Value)
        (L E : Str), items ≠ [] →
        eachActOn rcb data (varr items) L E
          = Except.bind (mapME (fun e =>
              rcb (metaSubst L e.1 items.length e.2)
                (data ++ [(str "this", e.2)])) items.enum)
              (fun outs => Except.pure (joinAll outs))) ∧
    render defaultEngine 2
      (mkEach (str "items")
        ('[' :: (dvar (str "@index") ++ ':' :: (dvar (str "@first")
          ++ ':' :: (dvar (str "@last") ++ ':' :: (dvar (str "this")
          ++ [']'])))))
        (str "EMPTY"))
      [(str "items", varr [Value.vStr ['a'], Value.vStr ['b']])]
      = .ok (str "[0:true::a][1::true:b]") := by
  refine ⟨?_, ?_, ?_, ?_, by decide⟩
  · intro rcb data p L E hp hpc hfind hsplit
    have hparse := tryEach_parse rcb data p L E hp hpc hfind true
    rw [show mkEach p L E = lb :: ([lb, '#', 'e', 'a', 'c', 'h', ' ']
      ++ (p ++ ([rb, rb] ++ (L ++ (elseTag ++ (E ++ eachClose)))))) from rfl]
      at hparse ⊢
    unfold eachPass runScan
    rw [List.length_cons, scanT_single_match_result hparse]
    unfold eachAct
    rw [hsplit]
    simp
  · intro rcb data arr L E hna
    cases arr with
    | vArr xs => exact absurd rfl (hna xs)
    | vStr s => rfl
    | vInt n => rfl
    | vBool b => rfl
    | vNull => rfl
    | vUndefined => rfl
    | vObj fields => rfl
    | vSafe s => rfl
    | vLam l => rfl
  · intro rcb data L E
    rfl
  · intro rcb data items L E hne
    unfold eachActOn varr
    simp only [ValList.toList_ofList]
    rw [if_neg (fun h => hne (by simpa using h))]
    rfl

theorem claim_C4_witness :
    eachPass (fun t _ => .ok t) [(str "xs", varr [Value.vInt 7])]
      (mkEach (str "xs") (dvar (str "@index")) (str "E"))
      = .ok (str "0") ∧
    eachActOn (fun t _ => .ok t) [] (Value.vInt 3) (str "L") (str "E")
      = .ok (str "E") ∧
    eachActOn (fun t _ => .ok t) [] (varr []) (str "L") (str "E")
      = .ok (str "E") := by
  refine ⟨?_, ?_, ?_⟩
  · exact (claim_C4.1 (fun t _ => .ok t) [(str "xs", varr [Value.vInt 7])]
      (str "xs") (dvar (str "@index")) (str "E") (by decide) (by decide)
      (by decide) (by decide)).trans (by decide)
  · exact claim_C4.2.1 (fun t _ => .ok t) [] (Value.vInt 3) (str "L")
      (str "E") (fun xs h => by cases h)
  · exact claim_C4.2.2.1 (fun t _ => .ok t) [] (str "L") (str "E")

/-- The spec sentence "{{{this}}} is replaced by the element's string
coercion" fails for an element whose coercion contains a JavaScript
replacement-string dollar sequence: $& re-splices the matched tag text. -/
theorem claim_C4_cex :
    metaSubst (dvar (str "this")) 0 1 (Value.vStr (str "$&"))
      = dvar (str "this") ∧
    dvar (str "this") ≠ str "$&" := by
  decide

end JTE

